import Mathlib

/-!
Shallow embedding of the permission subsystem of the multi-tenant ERP backend
(`backend/app/modules/permissions/service.py`, `backend/app/core/security.py`,
`backend/app/modules/permissions/router.py`).

Python strings are modelled as lists of characters (`PyStr`), Python dicts as
insertion-ordered association lists, SQLAlchemy sessions as an explicit record
holding the session-visible database plus the last committed snapshot, and
`uuid4`-style fresh id generation as a counter threaded through the state.
-/

namespace ERP

/-- Python string, modelled as its list of characters. -/
abbrev PyStr := List Char

/-- Whitespace characters removed by Python `str.strip()` (the ASCII fragment;
every string manipulated by this subsystem is ASCII). -/
def isPySpace (c : Char) : Bool :=
  c = ' ' || c = '\t' || c = '\n' || c = '\r' || c = '\x0b' || c = '\x0c'

/-- Python `str.strip()`: drop whitespace from both ends. -/
def pyStrip (s : PyStr) : PyStr :=
  ((s.dropWhile isPySpace).reverse.dropWhile isPySpace).reverse

/-- Python `str.lower()` (ASCII fragment). -/
def pyLower (s : PyStr) : PyStr := s.map Char.toLower

/-- Python `'.'.join(parts)`. -/
def pyJoinDot (parts : List PyStr) : PyStr := [ '.' ].intercalate parts

/-- Python `s.rsplit(sep, 1)[0]`: everything before the last occurrence of
`sep`, the whole string when `sep` does not occur. -/
def rsplitHead (s : PyStr) (sep : Char) : PyStr :=
  if s.contains sep then ((s.reverse.dropWhile (· != sep)).drop 1).reverse
  else s

/-- The five capability flags attached to one canonical permission key
(the `{"can_view": ..., ...}` dict built by `_parse_permission_tokens`). -/
structure Flags where
  can_view : Bool
  can_create : Bool
  can_edit : Bool
  can_delete : Bool
  can_export : Bool
deriving Repr, DecidableEq

/-- The all-false flag record used as `setdefault` default. -/
def Flags.none : Flags := ⟨false, false, false, false, false⟩

/-- Python dict keyed by strings: an insertion-ordered association list in
which each key occurs at most once; `dictSet` keeps the position of an
existing key and appends a fresh key at the end, exactly like Python
`d.setdefault`/`d[k] = v`. -/
abbrev Dict (V : Type) := List (PyStr × V)

/-- Dict lookup (`d.get(k)` / `k in d`). -/
def dictFind {V : Type} (d : Dict V) (k : PyStr) : Option V :=
  (d.find? (fun e => e.1 == k)).map (·.2)

/-- Dict write: replace in place, or append when the key is absent. -/
def dictSet {V : Type} (d : Dict V) (k : PyStr) (v : V) : Dict V :=
  match d with
  | [] => [(k, v)]
  | e :: rest => if e.1 == k then (k, v) :: rest else e :: dictSet rest k v

/-- The recognized action vocabulary of `_parse_permission_tokens`
(service.py line 159). -/
def actionsVocab : List PyStr :=
  ["view".toList, "create".toList, "edit".toList, "delete".toList, "export".toList]

/-- The `if action in (...)` / `elif ...` chain of `_parse_permission_tokens`
(service.py lines 194-207) updating one flag record. -/
def applyAction (action : PyStr) (f : Flags) : Flags :=
  if ["view".toList, "read".toList, "can_view".toList, []].contains action then
    { f with can_view := true }
  else if ["create".toList, "can_create".toList].contains action then
    { f with can_create := true, can_view := true }
  else if ["edit".toList, "update".toList, "can_edit".toList].contains action then
    { f with can_edit := true, can_view := true }
  else if ["delete".toList, "remove".toList, "can_delete".toList].contains action then
    { f with can_delete := true, can_view := true }
  else if ["export".toList, "can_export".toList].contains action then
    { f with can_export := true, can_view := true }
  else f

/-- One iteration of the token loop of `_parse_permission_tokens`
(service.py lines 161-207): decode `token` into the accumulated mapping. -/
def parseToken (mapping : Dict Flags) (token : PyStr) : Dict Flags :=
  if token.isEmpty then mapping else    -- `if not token: continue`
  let parts := token.splitOn '.'
  if parts.isEmpty then mapping else    -- `if not parts: continue`
  let action0 := pyLower (parts.getLastD [])
  let step :=
    if actionsVocab.contains action0 then
      let base_parts := parts.dropLast
      let base_parts :=
        if action0 ≠ "view".toList then base_parts ++ ["view".toList] else base_parts
      (action0, if ¬ base_parts.isEmpty then pyJoinDot base_parts else token)
    else
      ("view".toList, token)
  let base_key := pyStrip step.2
  if base_key.isEmpty then mapping else -- `if not base_key: continue`
  let flags := (dictFind mapping base_key).getD Flags.none
  dictSet mapping base_key (applyAction step.1 flags)

/-- Model of `PermissionService._parse_permission_tokens` (service.py lines 153-209).
`none` models Python `None`. -/
def parsePermissionTokens (tokens : Option (List PyStr)) : Dict Flags :=
  match tokens with
  | Option.none => []
  | some ts => ts.foldl parseToken []

/-- Model of `PermissionService._replace_action` (service.py lines 144-151). -/
def replaceAction (view_key : PyStr) (action : PyStr) : PyStr :=
  if action = "view".toList then view_key
  else if (".view".toList).isSuffixOf view_key then
    rsplitHead view_key '.' ++ '.' :: action
  else
    view_key ++ '.' :: action

/-- Python `set.add` on an insertion-ordered list model of a set. -/
def setAdd (l : List PyStr) (x : PyStr) : List PyStr :=
  if l.contains x then l else l ++ [x]

/-- One grid row submitted to `create_role`/`update_role`
(`{"menu_item_id": ..., "can_view": ..., ...}`). -/
structure PermGrid where
  menu_item_id : Nat
  can_view : Bool
  can_create : Bool
  can_edit : Bool
  can_delete : Bool
  can_export : Bool
deriving Repr, DecidableEq

/-- The per-item token accumulation of `create_role` (service.py lines
338-347) and `update_role` (lines 415-424): for each true flag, add the
corresponding token built with `_replace_action` to the running set. -/
def addGridTokens (tokens : List PyStr) (key : PyStr) (f : PermGrid) : List PyStr :=
  let tokens := if f.can_view then setAdd tokens key else tokens
  let tokens := if f.can_create then setAdd tokens (replaceAction key "create".toList) else tokens
  let tokens := if f.can_edit then setAdd tokens (replaceAction key "edit".toList) else tokens
  let tokens := if f.can_delete then setAdd tokens (replaceAction key "delete".toList) else tokens
  let tokens := if f.can_export then setAdd tokens (replaceAction key "export".toList) else tokens
  tokens

/-- The flag part of a grid row. -/
def gridOf (v c e d x : Bool) : PermGrid := ⟨0, v, c, e, d, x⟩

/-- The codec's token-building step for a single permission key: the tokens
`create_role`/`update_role` persist for one grid row on key `key`. -/
def buildTokens (key : PyStr) (f : PermGrid) : List PyStr :=
  addGridTokens [] key f


/-! ## Data model (auth/models.py, permissions/models.py)

Database ids (`UUID` columns, `uuid4()` defaults) are modelled as naturals
drawn from a fresh-id counter threaded through the session state. -/

/-- Model of database UUIDs. -/
abbrev DbId := Nat

/-- Model of a `Module` row (permissions/models.py). Only the columns the permission
subsystem reads are modelled. -/
structure ModuleRow where
  id : DbId
  code : PyStr
  name : PyStr
  icon : Option PyStr
  sort_order : Int
  is_active : Bool
deriving Repr, DecidableEq

/-- Model of a `MenuItem` row (permissions/models.py). -/
structure MenuItemRow where
  id : DbId
  module_id : DbId
  code : PyStr
  name : PyStr
  route : Option PyStr
  permission_key : PyStr
  icon : Option PyStr
  sort_order : Int
  is_active : Bool
deriving Repr, DecidableEq

/-- Model of a `SubscriptionPlan` row (permissions/models.py). -/
structure PlanRow where
  id : DbId
  code : PyStr
  name : PyStr
  is_active : Bool
  sort_order : Int
deriving Repr, DecidableEq

/-- Model of a `PlanMenuItem` row (permissions/models.py). -/
structure PlanMenuItemRow where
  plan_id : DbId
  menu_item_id : DbId
  is_included : Bool
deriving Repr, DecidableEq

/-- Model of a `Role` row (auth/models.py lines 89-104). The `permissions` JSON column
is non-nullable with a list default. -/
structure RoleRow where
  id : DbId
  tenant_id : Option DbId
  name : PyStr
  description : Option PyStr
  permissions : List PyStr
  is_system_role : Bool
deriving Repr, DecidableEq

/-- Model of a `Tenant` row (auth/models.py lines 11-33): the legacy `plan` code column
and the `subscription_plan_id` FK added for the permission system. -/
structure TenantRow where
  id : DbId
  plan : PyStr
  subscription_plan_id : Option DbId
deriving Repr, DecidableEq

/-- Model of a `UserTenant` row (auth/models.py lines 68-86). -/
structure UserTenantRow where
  user_id : DbId
  tenant_id : DbId
  roles : List PyStr
deriving Repr, DecidableEq

/-- The tables the permission subsystem touches, plus the fresh-id counter
modelling `uuid4()`/database id generation. -/
structure Db where
  tenants : List TenantRow
  plans : List PlanRow
  modules : List ModuleRow
  menu_items : List MenuItemRow
  plan_menu_items : List PlanMenuItemRow
  roles : List RoleRow
  user_tenants : List UserTenantRow
  next_id : DbId
deriving Repr, DecidableEq

/-- One SQLAlchemy session: `db` is what queries see (flushed writes
included), `committed` is the last committed snapshot.  `commit()` copies
`db` into `committed`; an exception leaves both parts as they are (the
service performs no rollback). -/
structure SessionState where
  db : Db
  committed : Db
deriving Repr, DecidableEq

/-- Payload of a `fastapi.HTTPException`. -/
structure HTTPError where
  status_code : Nat
  detail : PyStr
deriving Repr, DecidableEq

/-! ## Authorization gate (core/security.py) -/

/-- Body of the dependency returned by `require_permissions(required)`
(security.py lines 88-105): admit the principal, or reject listing the
missing keys. -/
def requirePermissions (required : List PyStr) (principalPerms : List PyStr) :
    Except HTTPError Unit :=
  if required.isEmpty then Except.ok ()
  else
    let missing := required.filter (fun p => ¬ principalPerms.contains p)
    if missing.isEmpty then Except.ok ()
    else Except.error ⟨403, "Missing permissions: ".toList ++ (", ".toList).intercalate missing⟩

/-- Modelled from the spec: `require_any_permission` is imported by
permissions/router.py (line 22) from app.core.security and applied to the
`update_role` route, but no definition of it exists in the source tree.
Per spec §4.5, `require_any(keys)` "fails only if none are present". -/
def requireAnyPermission (required : List PyStr) (principalPerms : List PyStr) :
    Except HTTPError Unit :=
  if required.any (fun p => principalPerms.contains p) then Except.ok ()
  else Except.error ⟨403, "Missing permissions".toList⟩

/-- Model of `RoleRepository.get_by_name_and_tenant` (auth/repository.py lines
127-132) in the tenant-scoped branch: the unique role with this name in the
tenant (`scalar_one_or_none`; role names are unique per tenant, so the first
match is the only one). -/
def roleByNameAndTenant (roles : List RoleRow) (name : PyStr) (tenant_id : DbId) :
    Option RoleRow :=
  roles.find? (fun r => r.name == name && r.tenant_id == some tenant_id)

/-- The permission aggregation of `get_current_principal` (security.py lines
72-77): the union of the raw `permissions` token lists of the user's roles.
A role whose lookup fails or whose token list is empty contributes nothing
(`if role and role.permissions`). -/
def principalPermissions (roles : List RoleRow) (user_tenant_roles : List PyStr)
    (tenant_id : DbId) : List PyStr :=
  user_tenant_roles.foldl
    (fun perms role_name =>
      match roleByNameAndTenant roles role_name tenant_id with
      | some role => role.permissions.foldl setAdd perms
      | Option.none => perms)
    []

/-! ## Effective-permission aggregation (service.py lines 475-512) -/

/-- Pointwise boolean OR of two flag records (service.py lines 506-510). -/
def orFlags (a b : Flags) : Flags :=
  ⟨a.can_view || b.can_view, a.can_create || b.can_create, a.can_edit || b.can_edit,
   a.can_delete || b.can_delete, a.can_export || b.can_export⟩

/-- The inner merge of `get_user_permissions` (service.py lines 495-510):
fold one decoded `(permission_key, flags)` entry into the aggregate. -/
def mergeEntry (agg : Dict Flags) (e : PyStr × Flags) : Dict Flags :=
  let entry := (dictFind agg e.1).getD Flags.none
  dictSet agg e.1 (orFlags entry e.2)

/-- The role loop of `get_user_permissions` (service.py lines 492-511):
decode each role's token list and OR-merge it into the aggregate. -/
def aggregatePermissions (roleTokenLists : List (List PyStr)) : Dict Flags :=
  roleTokenLists.foldl
    (fun agg perms => (parsePermissionTokens (some perms)).foldl mergeEntry agg) []

/-- Model of `PermissionService.get_user_permissions` (service.py lines 475-512). -/
def getUserPermissions (db : Db) (user_id tenant_id : DbId) : Dict Flags :=
  match db.user_tenants.find? (fun ut => ut.user_id == user_id && ut.tenant_id == tenant_id) with
  | Option.none => []
  | some ut =>
    if ut.roles.isEmpty then []   -- `if not user_tenant or not user_tenant.roles`
    else
      let rs := db.roles.filter
        (fun r => r.tenant_id == some tenant_id && ut.roles.contains r.name)
      aggregatePermissions (rs.map (·.permissions))

/-! ## Plan-scoped menu availability and navigation (service.py lines 30-139) -/

/-- Result of `get_available_menus_for_tenant` (`AvailableMenusResponse`). -/
structure AvailableMenus where
  modules : List ModuleRow
  menu_items : List MenuItemRow
  current_plan : PyStr
  plan_name : PyStr
deriving Repr, DecidableEq

/-- Comparison key of `sorted(..., key=lambda m: m.sort_order)` on modules.
Python `sorted` is a stable sort; any two stable sorts of the same list
under the same total preorder agree, so `List.insertionSort` is a faithful
model. -/
def moduleLe (a b : ModuleRow) : Prop := a.sort_order ≤ b.sort_order

/-- Comparison key of `sorted(..., key=lambda i: i.sort_order)` on items. -/
def itemLe (a b : MenuItemRow) : Prop := a.sort_order ≤ b.sort_order

instance : DecidableRel moduleLe := fun a b =>
  inferInstanceAs (Decidable (a.sort_order ≤ b.sort_order))

instance : DecidableRel itemLe := fun a b =>
  inferInstanceAs (Decidable (a.sort_order ≤ b.sort_order))

/-- The menu items entitled to a plan: the join/filter of
`get_available_menus_for_tenant` (service.py lines 66-76) before ordering —
active menu items having an included `PlanMenuItem` row for the plan. -/
def entitledMenuItems (db : Db) (plan_id : DbId) : List MenuItemRow :=
  db.menu_items.filter (fun item =>
    item.is_active && db.plan_menu_items.any (fun pm =>
      pm.menu_item_id == item.id && pm.plan_id == plan_id && pm.is_included))

/-- Model of `PermissionService.get_available_menus_for_tenant` (service.py lines
30-92).  The join/filter of lines 66-76 keeps the active menu items having
an included `PlanMenuItem` row for the resolved plan, ordered by item sort
order; lines 78-85 keep the active modules owning at least one such item,
ordered by module sort order.  When the tenant has no linked subscription
plan and the legacy plan code matches no plan row, a default "basic" plan is
created and flushed into the session (lines 51-61). -/
def getAvailableMenusForTenant (s : SessionState) (tenant_id : DbId) :
    SessionState × Except HTTPError AvailableMenus :=
  match s.db.tenants.find? (fun t => t.id == tenant_id) with
  | Option.none => (s, Except.error ⟨404, "Tenant not found".toList⟩)
  | some tenant =>
    let resolved := tenant.subscription_plan_id.bind
      (fun pid => s.db.plans.find? (fun (p : PlanRow) => p.id == pid))
    let step :=
      match resolved with
      | some sp => (s, sp)
      | Option.none =>
        match s.db.plans.find? (fun (p : PlanRow) => p.code == tenant.plan) with
        | some sp => (s, sp)
        | Option.none =>
          let sp : PlanRow :=
            ⟨s.db.next_id, "basic".toList, "Basic Plan".toList, true, 1⟩
          (⟨{ s.db with plans := s.db.plans ++ [sp], next_id := s.db.next_id + 1 },
            s.committed⟩, sp)
    let s := step.1
    let plan := step.2
    let items := (entitledMenuItems s.db plan.id).insertionSort itemLe
    let module_ids := items.map (·.module_id)
    let mods := (s.db.modules.filter
        (fun m => module_ids.contains m.id && m.is_active)).insertionSort moduleLe
    (s, Except.ok ⟨mods, items, plan.code, plan.name⟩)

/-- Model of the `NavigationMenuItem` schema (schemas.py lines 128-135). -/
structure NavMenuItem where
  id : DbId
  code : PyStr
  name : PyStr
  route : Option PyStr
  icon : Option PyStr
  permission_key : PyStr
  sort_order : Int
deriving Repr, DecidableEq

/-- Model of the `NavigationModule` schema (schemas.py lines 138-144). -/
structure NavModule where
  id : DbId
  code : PyStr
  name : PyStr
  icon : Option PyStr
  sort_order : Int
  items : List NavMenuItem
deriving Repr, DecidableEq

/-- Python truthiness of the optional `route` column (`if item.route`). -/
def routeTruthy (r : Option PyStr) : Bool :=
  match r with
  | Option.none => false
  | some x => ¬ x.isEmpty

/-- One module's navigation entry: the body of the module loop of
`get_navigation_for_user` (service.py lines 108-135).  `none` models the
`continue` taken when the module has no allowed items.  The
`items_by_module` dict built with `setdefault`-append (lines 103-105)
groups `allowed_items` by module id preserving order, so the list fetched
for a module equals filtering `allowed_items` by that module id; the `get`
returning a falsy value (lines 109-111) corresponds to that filter being
empty. -/
def navModuleFor (allowed_items : List MenuItemRow) (m : ModuleRow) : Option NavModule :=
  let module_items := allowed_items.filter (fun item => item.module_id == m.id)
  if module_items.isEmpty then Option.none
  else
    let sorted_items := module_items.insertionSort itemLe
    some { id := m.id, code := m.code, name := m.name, icon := m.icon,
           sort_order := m.sort_order,
           items := (sorted_items.filter (fun item => routeTruthy item.route)).map
             (fun item =>
               ⟨item.id, item.code, item.name, item.route, item.icon,
                item.permission_key, item.sort_order⟩) }

/-- Model of `PermissionService.get_navigation_for_user` (service.py lines
94-139). -/
def getNavigationForUser (s : SessionState) (tenant_id : DbId) (allowed : List PyStr) :
    SessionState × Except HTTPError (List NavModule) :=
  match getAvailableMenusForTenant s tenant_id with
  | (s1, Except.error e) => (s1, Except.error e)
  | (s1, Except.ok available) =>
    let allowed_items :=
      available.menu_items.filter (fun item => allowed.contains item.permission_key)
    let navigation := (available.modules.insertionSort moduleLe).filterMap
      (navModuleFor allowed_items)
    (s1, Except.ok (navigation.filter (fun m => ¬ m.items.isEmpty)))

/-! ## Role mutation (service.py lines 294-430) -/

/-- Model of the `RoleCreate` payload (schemas.py lines 77-78). -/
structure RoleCreatePayload where
  name : PyStr
  description : Option PyStr
  permissions : List PermGrid
deriving Repr, DecidableEq

/-- Model of the `RoleUpdate` payload (schemas.py lines 81-84). -/
structure RoleUpdatePayload where
  name : Option PyStr
  description : Option PyStr
  permissions : Option (List PermGrid)
deriving Repr, DecidableEq

/-- One iteration of the grid-validation/encoding loop shared by
`create_role` (service.py lines 325-347) and `update_role` (lines 402-424):
check the referenced menu item against the plan-entitled ids, skip ids
without a permission key (the dict comprehension
`{item.id: item.permission_key for item in menu_items}` with unique ids is
modelled by `find?`, and `if not permission_key: continue` covers both a
missing id and an empty key), and accumulate the encoded tokens. -/
def encodeGridStep (available : AvailableMenus) (tokens : List PyStr)
    (perm_data : PermGrid) : Except HTTPError (List PyStr) :=
  if ¬ (available.menu_items.map (·.id)).contains perm_data.menu_item_id then
    Except.error ⟨400, "Menu item not available for your subscription plan".toList⟩
  else
    match available.menu_items.find? (fun item => item.id == perm_data.menu_item_id) with
    | Option.none => Except.ok tokens
    | some item =>
      if item.permission_key.isEmpty then Except.ok tokens
      else Except.ok (addGridTokens tokens item.permission_key perm_data)

/-- The whole grid-validation/encoding loop: raises the subscription-plan
error on the first non-entitled menu item, otherwise returns the encoded
token set. -/
def encodeGrid (available : AvailableMenus) (grid : List PermGrid) :
    Except HTTPError (List PyStr) :=
  grid.foldlM (encodeGridStep available) []

/-- Model of `PermissionService.create_role` (service.py lines 294-352).  The new
role row is added and flushed with an empty permission list before the grid
is validated; its encoded tokens are only assigned after the whole grid
passes, followed by the commit.  On any raise the session keeps the flushed
role and nothing is committed (the service has no rollback).  The source
returns the display payload of `get_role_by_id`; the model returns the new
role's id, which determines that payload. -/
def createRole (s : SessionState) (tenant_id : DbId) (role_data : RoleCreatePayload) :
    SessionState × Except HTTPError DbId :=
  match s.db.roles.find?
      (fun r => r.tenant_id == some tenant_id && r.name == role_data.name) with
  | some _ => (s, Except.error ⟨400, "Role already exists".toList⟩)
  | Option.none =>
    match getAvailableMenusForTenant s tenant_id with
    | (s1, Except.error e) => (s1, Except.error e)
    | (s1, Except.ok available) =>
      let role : RoleRow :=
        ⟨s1.db.next_id, some tenant_id, role_data.name, role_data.description, [], false⟩
      let s2 : SessionState :=
        ⟨{ s1.db with roles := s1.db.roles ++ [role], next_id := s1.db.next_id + 1 },
         s1.committed⟩
      match encodeGrid available role_data.permissions with
      | Except.error e => (s2, Except.error e)
      | Except.ok tokens =>
        let db3 := { s2.db with
          roles := s2.db.roles.map
            (fun r => if r.id == role.id then { r with permissions := tokens } else r) }
        (⟨db3, db3⟩, Except.ok role.id)   -- `self.db.commit()`

/-- The in-place field updates of `update_role` (service.py lines 373-393):
name and description are assigned only when the payload provides them. -/
def roleAfterUpdate (role : RoleRow) (role_data : RoleUpdatePayload) : RoleRow :=
  { role with name := role_data.name.getD role.name,
              description := (role_data.description.map some).getD role.description }

/-- Model of `PermissionService.update_role` (service.py lines 354-430).  Name and
description are only touched when the payload provides them; the permission
token list is only rebuilt when `role_data.permissions is not None`.  The
final commit publishes the session. -/
def updateRole (s : SessionState) (role_id tenant_id : DbId)
    (role_data : RoleUpdatePayload) : SessionState × Except HTTPError DbId :=
  match s.db.roles.find? (fun r => r.id == role_id && r.tenant_id == some tenant_id) with
  | Option.none => (s, Except.error ⟨404, "Role not found".toList⟩)
  | some role =>
    if role.is_system_role then
      (s, Except.error ⟨400, "Cannot modify system roles".toList⟩)
    else
      let nameCheck : Except HTTPError Unit :=
        match role_data.name with
        | Option.none => Except.ok ()
        | some new_name =>
          match s.db.roles.find? (fun r =>
              r.tenant_id == some tenant_id && r.name == new_name && r.id != role_id) with
          | some _ => Except.error ⟨400, "Role already exists".toList⟩
          | Option.none => Except.ok ()
      match nameCheck with
      | Except.error e => (s, Except.error e)
      | Except.ok _ =>
        let role1 := roleAfterUpdate role role_data
        match role_data.permissions with
        | Option.none =>
          let db1 := { s.db with
            roles := s.db.roles.map (fun r => if r.id == role.id then role1 else r) }
          (⟨db1, db1⟩, Except.ok role.id)   -- commit
        | some grid =>
          match getAvailableMenusForTenant ⟨{ s.db with
              roles := s.db.roles.map (fun r => if r.id == role.id then role1 else r) },
              s.committed⟩ tenant_id with
          | (s1, Except.error e) => (s1, Except.error e)
          | (s1, Except.ok available) =>
            match encodeGrid available grid with
            | Except.error e => (s1, Except.error e)
            | Except.ok tokens =>
              let db2 := { s1.db with
                roles := s1.db.roles.map
                  (fun r => if r.id == role.id then { role1 with permissions := tokens } else r) }
              (⟨db2, db2⟩, Except.ok role.id)   -- commit

instance {ε α : Type} [DecidableEq ε] [DecidableEq α] : DecidableEq (Except ε α) :=
  fun x y =>
    match x, y with
    | Except.ok a, Except.ok b =>
      if h : a = b then isTrue (by rw [h]) else isFalse (by intro hc; cases hc; exact h rfl)
    | Except.error a, Except.error b =>
      if h : a = b then isTrue (by rw [h]) else isFalse (by intro hc; cases hc; exact h rfl)
    | Except.ok _, Except.error _ => isFalse (by intro hc; cases hc)
    | Except.error _, Except.ok _ => isFalse (by intro hc; cases hc)

/-- Concrete one-module, one-item database used to exercise the navigation
builder on a fully evaluated input. -/
def navDemoDb : Db :=
  ⟨[⟨1, "basic".toList, some 2⟩],
   [⟨2, "basic".toList, "Basic".toList, true, 1⟩],
   [⟨7, "m".toList, "M".toList, Option.none, 1, true⟩],
   [⟨3, 7, "i".toList, "I".toList, some "/x".toList, "products.view".toList,
     Option.none, 1, true⟩],
   [⟨2, 3, true⟩], [], [], 100⟩

/-- The navigation module produced from `navDemoDb` for a principal holding
"products.view". -/
def navDemoModule : NavModule :=
  { id := 7, code := "m".toList, name := "M".toList, icon := Option.none,
    sort_order := 1,
    items := [⟨3, "i".toList, "I".toList, some "/x".toList, Option.none,
      "products.view".toList, 1⟩] }

/-- Concrete database for exercising the role-mutation paths: one tenant on
a resolved plan, an empty plan-entitlement set and one stored role. -/
def mutDemoDb : Db :=
  ⟨[⟨1, "basic".toList, some 2⟩],
   [⟨2, "basic".toList, "Basic".toList, true, 1⟩],
   [], [], [],
   [⟨5, some 1, "r".toList, Option.none, ["products.view".toList], false⟩],
   [], 100⟩

/-- The five capability positions, for flag-level statements. -/
inductive Cap where
  | view
  | create
  | edit
  | del
  | exp
deriving DecidableEq, Repr

/-- Projection of one capability out of a flag record. -/
def Flags.get (f : Flags) : Cap → Bool
  | Cap.view => f.can_view
  | Cap.create => f.can_create
  | Cap.edit => f.can_edit
  | Cap.del => f.can_delete
  | Cap.exp => f.can_export

/-- Capability read off an optional dict entry (absent entry = all false). -/
def capOf (o : Option Flags) (c : Cap) : Bool :=
  (o.map (Flags.get · c)).getD false

/-- Keys of the decoded/aggregated dicts are pairwise distinct. -/
def keysNodup {V : Type} (d : Dict V) : Prop := (d.map Prod.fst).Nodup

/-- Well-formedness of the dot-segments of a permission-key stem: each
segment is non-empty, dot-free and whitespace-free, and there is at least
one segment. -/
def goodSegs (ss : List PyStr) : Prop :=
  ss ≠ [] ∧ ∀ s ∈ ss, s ≠ [] ∧ '.' ∉ s ∧ ∀ ch ∈ s, isPySpace ch = false

/-! ## Generic lemmas about the dict and set models -/

theorem dictFind_nil {V : Type} (k : PyStr) : dictFind ([] : Dict V) k = Option.none := rfl

theorem dictFind_dictSet {V : Type} (d : Dict V) (k k' : PyStr) (v : V) :
    dictFind (dictSet d k v) k' = if k == k' then some v else dictFind d k' := by
  induction d with
  | nil =>
    simp only [dictSet, dictFind, List.find?]
    cases h : k == k' <;> simp [h]
  | cons e rest ih =>
    simp only [dictSet]
    by_cases he : (e.1 == k) = true
    · have he' : e.1 = k := by simpa using he
      subst he'
      simp only [he, if_true, dictFind, List.find?]
      cases h : e.1 == k' <;> simp [h, dictFind]
    · simp only [he, if_false, Bool.false_eq_true]
      by_cases hek : (e.1 == k') = true
      · have : e.1 = k' := by simpa using hek
        have hkk : (k == k') = false := by
          apply beq_eq_false_iff_ne.mpr
          intro hkeq
          exact he (by simp [hkeq, this])
        simp [dictFind, List.find?, hek, hkk]
      · simp only [dictFind, List.find?] at *
        simp [hek, ih, dictFind]

theorem mem_setAdd (l : List PyStr) (x y : PyStr) :
    y ∈ setAdd l x ↔ y ∈ l ∨ y = x := by
  simp only [setAdd]
  split
  · rename_i h
    have hx : x ∈ l := by
      obtain ⟨a, ha, hb⟩ := List.contains_iff_exists_mem_beq.mp h
      have hxa : x = a := beq_iff_eq.mp hb
      rw [hxa]; exact ha
    constructor
    · exact Or.inl
    · rintro (hy | rfl) <;> [exact hy; exact hx]
  · simp [List.mem_append]

theorem mem_foldl_setAdd (ts : List PyStr) (acc : List PyStr) (y : PyStr) :
    y ∈ ts.foldl setAdd acc ↔ y ∈ acc ∨ y ∈ ts := by
  induction ts generalizing acc with
  | nil => simp
  | cons t rest ih =>
    simp only [List.foldl_cons, ih, mem_setAdd, List.mem_cons]
    tauto

/-! ## C2: the authorization gate -/

/-- C2: the Authorization Gate exposes both operations: `require_all(keys)`
(source `require_permissions`) rejects exactly when at least one required
key is absent from the principal's permission set, and `require_any(keys)`
(`require_any_permission`, modelled from the spec) rejects exactly when none
of the keys are present. -/
theorem authorization_gate_characterization (required perms : List PyStr) :
    ((requirePermissions required perms).isOk ↔ ∀ k ∈ required, k ∈ perms)
    ∧ ((requireAnyPermission required perms).isOk ↔ ∃ k ∈ required, k ∈ perms) := by
  constructor
  · simp only [requirePermissions]
    split
    · rename_i h
      have : required = [] := List.isEmpty_iff.mp h
      subst this
      simp [Except.isOk, Except.toBool]
    · split
      · rename_i hmiss
        have := List.isEmpty_iff.mp hmiss
        rw [List.filter_eq_nil_iff] at this
        simp only [Except.isOk, Except.toBool]
        constructor
        · intro _ k hk
          have := this k hk
          simpa [List.elem_iff] using this
        · intro _; trivial
      · rename_i hmiss
        simp only [Except.isOk, Except.toBool]
        constructor
        · intro h; cases h
        · intro hall
          exfalso
          apply hmiss
          rw [List.isEmpty_iff, List.filter_eq_nil_iff]
          intro k hk
          simp [List.elem_iff, hall k hk]
  · simp only [requireAnyPermission]
    split
    · rename_i h
      rw [List.any_eq_true] at h
      simp only [Except.isOk, Except.toBool]
      constructor
      · intro _
        obtain ⟨k, hk, hc⟩ := h
        exact ⟨k, hk, by simpa [List.elem_iff] using hc⟩
      · intro _; trivial
    · rename_i h
      simp only [Except.isOk, Except.toBool]
      constructor
      · intro hh; cases hh
      · rintro ⟨k, hk, hmem⟩
        exfalso
        apply h
        rw [List.any_eq_true]
        exact ⟨k, hk, by simpa [List.elem_iff] using hmem⟩

/-! ## The decode step on tokens without a recognized action suffix -/

theorem applyAction_view (f : Flags) :
    applyAction "view".toList f = { f with can_view := true } := rfl

theorem applyAction_create (f : Flags) :
    applyAction "create".toList f = { f with can_create := true, can_view := true } := rfl

theorem applyAction_edit (f : Flags) :
    applyAction "edit".toList f = { f with can_edit := true, can_view := true } := rfl

theorem applyAction_del (f : Flags) :
    applyAction "delete".toList f = { f with can_delete := true, can_view := true } := rfl

theorem applyAction_exp (f : Flags) :
    applyAction "export".toList f = { f with can_export := true, can_view := true } := rfl

/-- Decode step for a token whose last dot-segment is not in the recognized
action vocabulary: the token itself (already stripped) becomes the key and
only `can_view` is switched on. -/
theorem parseToken_unrecognized (m : Dict Flags) (t : PyStr) (hne : t ≠ [])
    (hstrip : pyStrip t = t)
    (hact : actionsVocab.contains (pyLower ((t.splitOn '.').getLastD [])) = false) :
    parseToken m t =
      dictSet m t { (dictFind m t).getD Flags.none with can_view := true } := by
  simp only [parseToken]
  rw [if_neg (by simpa [List.isEmpty_iff] using hne)]
  rw [if_neg (by simp [List.isEmpty_iff, List.splitOn, List.splitOnP_ne_nil])]
  simp only [hact, Bool.false_eq_true, if_false, hstrip]
  rw [if_neg (by simpa [List.isEmpty_iff] using hne)]
  rw [applyAction_view]

/-- C7: a token whose last dot-separated segment is not a recognized action
(for example the seeded legacy token "sales.create_order") decodes under
the full token verbatim as its canonical key, with `can_view` true and no
other flag set. -/
theorem legacy_token_decode (t : PyStr) (hne : t ≠ []) (hstrip : pyStrip t = t)
    (hact : actionsVocab.contains (pyLower ((t.splitOn '.').getLastD [])) = false) :
    parsePermissionTokens (some [t]) = [(t, ⟨true, false, false, false, false⟩)] := by
  simp only [parsePermissionTokens, List.foldl_cons, List.foldl_nil]
  rw [parseToken_unrecognized [] t hne hstrip hact]
  rfl

/-- Witness for C7 at the seeded legacy token "sales.create_order". -/
theorem legacy_token_decode_witness :
    parsePermissionTokens (some ["sales.create_order".toList]) =
      [("sales.create_order".toList, ⟨true, false, false, false, false⟩)] :=
  legacy_token_decode "sales.create_order".toList (by decide) (by decide) (by decide)

/-! ## C8: malformed-token handling -/

/-- C8 counterexample: a token with a trailing dot is not skipped — decoding
"products." produces a mapping entry (keyed by "products." itself, view
only), contradicting the claim that trailing-dot tokens yield no entry. -/
theorem trailing_dot_token_counterexample :
    parsePermissionTokens (some ["products.".toList]) =
      [("products.".toList, ⟨true, false, false, false, false⟩)]
    ∧ parsePermissionTokens (some ["products.".toList]) ≠ [] := by
  constructor <;> decide

/-- C8 amended: `_parse_permission_tokens` skips, without error and without
producing an entry, the empty token and any token whose canonical key strips
to the empty string (such as ".view" or a whitespace-only token), while
still decoding the remaining tokens of the list; a trailing-dot token such
as "products." is not skipped but decodes verbatim as a view-only entry. -/
theorem malformed_token_skipping (pre post : List PyStr) :
    parsePermissionTokens (some (pre ++ [[]] ++ post)) =
      parsePermissionTokens (some (pre ++ post))
    ∧ parsePermissionTokens (some (pre ++ [".view".toList] ++ post)) =
      parsePermissionTokens (some (pre ++ post))
    ∧ parsePermissionTokens (some (pre ++ ["   ".toList] ++ post)) =
      parsePermissionTokens (some (pre ++ post)) := by
  have h1 : ∀ d : Dict Flags, parseToken d [] = d := fun _ => rfl
  have h2 : ∀ d : Dict Flags, parseToken d ['.', 'v', 'i', 'e', 'w'] = d := fun _ => rfl
  have h3 : ∀ d : Dict Flags, parseToken d [' ', ' ', ' '] = d := fun _ => rfl
  refine ⟨?_, ?_, ?_⟩ <;>
    simp [parsePermissionTokens, List.foldl_append, h1, h2, h3]

/-! ## C3: principal permission set versus canonical effective keys -/

/-- C3 counterexample: for a user whose single role stores the token
"products.view", the principal's permission set is the raw token set
containing "products.view" while the canonical key set of
`get_user_permissions` contains only "products" (decoding strips the ".view"
suffix), so the two computations disagree. -/
theorem principal_set_vs_canonical_keys_counterexample :
    principalPermissions
        [⟨5, some 1, "admin".toList, Option.none, ["products.view".toList], false⟩]
        ["admin".toList] 1 = ["products.view".toList]
    ∧ (getUserPermissions
        ⟨[], [], [], [], [],
         [⟨5, some 1, "admin".toList, Option.none, ["products.view".toList], false⟩],
         [⟨10, 1, ["admin".toList]⟩], 100⟩ 10 1).map Prod.fst = ["products".toList]
    ∧ "products".toList ∉ principalPermissions
        [⟨5, some 1, "admin".toList, Option.none, ["products.view".toList], false⟩]
        ["admin".toList] 1
    ∧ "products".toList ∈ (getUserPermissions
        ⟨[], [], [], [], [],
         [⟨5, some 1, "admin".toList, Option.none, ["products.view".toList], false⟩],
         [⟨10, 1, ["admin".toList]⟩], 100⟩ 10 1).map Prod.fst := by
  refine ⟨by decide, by decide, by decide, by decide⟩

/-- C3 amended: the permission set attached to the authenticated principal
is the union of the raw stored permission tokens of the user's resolved
roles — not the canonical key set of `get_user_permissions`, from which it
differs whenever a stored token's canonical decoded key differs from the
token itself (e.g. tokens ending in ".view"). -/
theorem principal_permissions_raw_union (roles : List RoleRow)
    (uroles : List PyStr) (tid : DbId) (k : PyStr) :
    k ∈ principalPermissions roles uroles tid ↔
      ∃ name ∈ uroles, ∃ r, roleByNameAndTenant roles name tid = some r ∧
        k ∈ r.permissions := by
  have h : ∀ acc,
      (k ∈ uroles.foldl
        (fun perms role_name =>
          match roleByNameAndTenant roles role_name tid with
          | some role => role.permissions.foldl setAdd perms
          | Option.none => perms) acc
      ↔ k ∈ acc ∨ ∃ name ∈ uroles, ∃ r,
          roleByNameAndTenant roles name tid = some r ∧ k ∈ r.permissions) := by
    induction uroles with
    | nil => intro acc; simp
    | cons n rest ih =>
      intro acc
      simp only [List.foldl_cons]
      cases hr : roleByNameAndTenant roles n tid with
      | none =>
        rw [ih]
        constructor
        · rintro (hacc | ⟨name, hmem, r, hfind, hk⟩)
          · exact Or.inl hacc
          · exact Or.inr ⟨name, List.mem_cons_of_mem _ hmem, r, hfind, hk⟩
        · rintro (hacc | ⟨name, hmem, r, hfind, hk⟩)
          · exact Or.inl hacc
          · rcases List.mem_cons.mp hmem with rfl | hmem'
            · rw [hr] at hfind; cases hfind
            · exact Or.inr ⟨name, hmem', r, hfind, hk⟩
      | some role =>
        rw [ih, mem_foldl_setAdd]
        constructor
        · rintro ((hacc | hperm) | ⟨name, hmem, r, hfind, hk⟩)
          · exact Or.inl hacc
          · exact Or.inr ⟨n, List.mem_cons_self n rest, role, hr, hperm⟩
          · exact Or.inr ⟨name, List.mem_cons_of_mem _ hmem, r, hfind, hk⟩
        · rintro (hacc | ⟨name, hmem, r, hfind, hk⟩)
          · exact Or.inl (Or.inl hacc)
          · rcases List.mem_cons.mp hmem with rfl | hmem'
            · rw [hr] at hfind
              cases hfind
              exact Or.inl (Or.inr hk)
            · exact Or.inr ⟨name, hmem', r, hfind, hk⟩
  simpa [principalPermissions] using h []

/-! ## C6: OR-aggregation of effective permissions across roles -/


theorem Flags.get_orFlags (a b : Flags) (c : Cap) :
    (orFlags a b).get c = (a.get c || b.get c) := by
  cases c <;> rfl

theorem Flags.get_noneFlags (c : Cap) : Flags.none.get c = false := by
  cases c <;> rfl

theorem Flags.ext_of_get (a b : Flags) (h : ∀ c, a.get c = b.get c) : a = b := by
  cases a; cases b
  have h1 := h Cap.view
  have h2 := h Cap.create
  have h3 := h Cap.edit
  have h4 := h Cap.del
  have h5 := h Cap.exp
  simp only [Flags.get] at h1 h2 h3 h4 h5
  simp [h1, h2, h3, h4, h5]

theorem capOf_some (f : Flags) (c : Cap) : capOf (some f) c = f.get c := rfl

theorem Flags.get_getD (o : Option Flags) (c : Cap) :
    (o.getD Flags.none).get c = capOf o c := by
  cases o <;> simp [capOf, Flags.get_noneFlags]

theorem capOf_find_mergeEntry (agg : Dict Flags) (e : PyStr × Flags) (k : PyStr) (c : Cap) :
    capOf (dictFind (mergeEntry agg e) k) c =
      (capOf (dictFind agg k) c || (e.1 == k && e.2.get c)) := by
  simp only [mergeEntry, dictFind_dictSet]
  by_cases h : (e.1 == k) = true
  · have he : e.1 = k := by simpa using h
    subst he
    simp [capOf_some, Flags.get_orFlags, Flags.get_getD]
  · simp only [h, if_false, Bool.false_eq_true, Bool.false_and, Bool.or_false]

theorem isSome_find_mergeEntry (agg : Dict Flags) (e : PyStr × Flags) (k : PyStr) :
    (dictFind (mergeEntry agg e) k).isSome = ((dictFind agg k).isSome || (e.1 == k)) := by
  simp only [mergeEntry, dictFind_dictSet]
  by_cases h : (e.1 == k) = true
  · simp [h]
  · simp [h, Bool.false_eq_true]

theorem capOf_find_foldl_mergeEntry (d : Dict Flags) (agg : Dict Flags) (k : PyStr) (c : Cap) :
    capOf (dictFind (d.foldl mergeEntry agg) k) c =
      (capOf (dictFind agg k) c || d.any (fun e => e.1 == k && e.2.get c)) := by
  induction d generalizing agg with
  | nil => simp
  | cons e rest ih =>
    simp [List.foldl_cons, ih, capOf_find_mergeEntry, Bool.or_assoc]

theorem isSome_find_foldl_mergeEntry (d : Dict Flags) (agg : Dict Flags) (k : PyStr) :
    (dictFind (d.foldl mergeEntry agg) k).isSome =
      ((dictFind agg k).isSome || d.any (fun e => e.1 == k)) := by
  induction d generalizing agg with
  | nil => simp
  | cons e rest ih =>
    simp [List.foldl_cons, ih, isSome_find_mergeEntry, Bool.or_assoc]

theorem capOf_find_aggregate (rls : List (List PyStr)) (k : PyStr) (c : Cap) :
    capOf (dictFind (aggregatePermissions rls) k) c =
      rls.any (fun perms =>
        (parsePermissionTokens (some perms)).any (fun e => e.1 == k && e.2.get c)) := by
  have h : ∀ acc : Dict Flags,
      capOf (dictFind (rls.foldl
        (fun agg perms => (parsePermissionTokens (some perms)).foldl mergeEntry agg) acc) k) c =
      (capOf (dictFind acc k) c || rls.any (fun perms =>
        (parsePermissionTokens (some perms)).any (fun e => e.1 == k && e.2.get c))) := by
    induction rls with
    | nil => intro acc; simp
    | cons p rest ih =>
      intro acc
      simp [List.foldl_cons, ih, capOf_find_foldl_mergeEntry, Bool.or_assoc]
  simpa [aggregatePermissions, capOf] using h []

theorem isSome_find_aggregate (rls : List (List PyStr)) (k : PyStr) :
    (dictFind (aggregatePermissions rls) k).isSome =
      rls.any (fun perms => (parsePermissionTokens (some perms)).any (fun e => e.1 == k)) := by
  have h : ∀ acc : Dict Flags,
      (dictFind (rls.foldl
        (fun agg perms => (parsePermissionTokens (some perms)).foldl mergeEntry agg) acc) k).isSome =
      ((dictFind acc k).isSome || rls.any (fun perms =>
        (parsePermissionTokens (some perms)).any (fun e => e.1 == k))) := by
    induction rls with
    | nil => intro acc; simp
    | cons p rest ih =>
      intro acc
      simp [List.foldl_cons, ih, isSome_find_foldl_mergeEntry, Bool.or_assoc]
  simpa [aggregatePermissions] using h []

theorem any_ext {α : Type} (l : List α) (f g : α → Bool) (h : ∀ x ∈ l, f x = g x) :
    l.any f = l.any g := by
  induction l with
  | nil => rfl
  | cons x rest ih =>
    simp only [List.any_cons]
    rw [h x (List.mem_cons_self x rest), ih (fun y hy => h y (List.mem_cons_of_mem x hy))]

theorem any_congr_perm {α : Type} {l l' : List α} (h : l.Perm l') (f : α → Bool) :
    l.any f = l'.any f := by
  cases hl : l.any f with
  | true =>
    obtain ⟨x, hx, hfx⟩ := List.any_eq_true.mp hl
    exact (List.any_eq_true.mpr ⟨x, h.mem_iff.mp hx, hfx⟩).symm
  | false =>
    cases hl' : l'.any f with
    | false => rfl
    | true =>
      obtain ⟨x, hx, hfx⟩ := List.any_eq_true.mp hl'
      rw [List.any_eq_false] at hl
      exact absurd hfx (hl x (h.mem_iff.mpr hx))


theorem mem_keys_dictSet {V : Type} (d : Dict V) (k : PyStr) (v : V) (x : PyStr) :
    x ∈ (dictSet d k v).map Prod.fst ↔ x ∈ d.map Prod.fst ∨ x = k := by
  induction d with
  | nil =>
    simp only [dictSet, List.map_cons, List.map_nil, List.mem_singleton,
      List.not_mem_nil, false_or]
  | cons e rest ih =>
    simp only [dictSet]
    by_cases h : (e.1 == k) = true
    · have he : e.1 = k := by simpa using h
      subst he
      simp only [h, if_true, List.map_cons, List.mem_cons]
      tauto
    · simp only [h, if_false, Bool.false_eq_true, List.map_cons, List.mem_cons, ih]
      tauto

theorem keysNodup_dictSet {V : Type} (d : Dict V) (k : PyStr) (v : V)
    (h : keysNodup d) : keysNodup (dictSet d k v) := by
  induction d with
  | nil =>
    simp only [dictSet, keysNodup, List.map_cons, List.map_nil]
    exact List.nodup_singleton _
  | cons e rest ih =>
    simp only [keysNodup, List.map_cons, List.nodup_cons] at h
    by_cases hk : (e.1 == k) = true
    · have he : e.1 = k := by simpa using hk
      subst he
      simp only [dictSet, hk, if_true, keysNodup, List.map_cons, List.nodup_cons]
      exact ⟨h.1, h.2⟩
    · have h1 := ih h.2
      simp only [dictSet, hk, if_false, Bool.false_eq_true, keysNodup, List.map_cons,
        List.nodup_cons]
      refine ⟨?_, h1⟩
      rw [mem_keys_dictSet]
      rintro (hmem | rfl)
      · exact h.1 hmem
      · exact absurd (rfl : e.1 = e.1) (by simpa using hk)

theorem keysNodup_parseToken (m : Dict Flags) (t : PyStr) (h : keysNodup m) :
    keysNodup (parseToken m t) := by
  simp only [parseToken]
  repeat' split
  all_goals first
    | exact h
    | exact keysNodup_dictSet _ _ _ h

theorem keysNodup_parse (tokens : Option (List PyStr)) :
    keysNodup (parsePermissionTokens tokens) := by
  cases tokens with
  | none => exact List.Pairwise.nil
  | some ts =>
    simp only [parsePermissionTokens]
    have h : ∀ acc : Dict Flags, keysNodup acc → keysNodup (ts.foldl parseToken acc) := by
      induction ts with
      | nil => intro acc hacc; exact hacc
      | cons t rest ih =>
        intro acc hacc
        exact ih _ (keysNodup_parseToken acc t hacc)
    exact h [] List.Pairwise.nil

theorem any_key_and_get (d : Dict Flags) (hd : keysNodup d) (k : PyStr) (c : Cap) :
    d.any (fun e => e.1 == k && e.2.get c) = capOf (dictFind d k) c := by
  induction d with
  | nil => rfl
  | cons e rest ih =>
    simp only [keysNodup, List.map_cons, List.nodup_cons] at hd
    by_cases h : (e.1 == k) = true
    · have he : e.1 = k := by simpa using h
      have hrest : rest.any (fun e => e.1 == k && e.2.get c) = false := by
        rw [List.any_eq_false]
        intro e' he'
        have hne : e'.1 ≠ k := by
          intro heq
          apply hd.1
          rw [he, ← heq]
          exact List.mem_map_of_mem Prod.fst he'
        simp [beq_eq_false_iff_ne.mpr hne]
      simp [List.any_cons, h, hrest, dictFind, List.find?, capOf_some]
    · simp only [List.any_cons, h, Bool.false_and, Bool.false_or]
      rw [ih hd.2]
      simp [dictFind, List.find?, h]

theorem any_key (d : Dict Flags) (hd : keysNodup d) (k : PyStr) :
    d.any (fun e => e.1 == k) = (dictFind d k).isSome := by
  induction d with
  | nil => rfl
  | cons e rest ih =>
    simp only [keysNodup, List.map_cons, List.nodup_cons] at hd
    by_cases h : (e.1 == k) = true
    · simp [List.any_cons, h, dictFind, List.find?]
    · simp only [List.any_cons, h, Bool.false_or]
      rw [ih hd.2]
      simp [dictFind, List.find?, h]

theorem capOf_find_aggregate_roles (rls : List (List PyStr)) (k : PyStr) (c : Cap) :
    capOf (dictFind (aggregatePermissions rls) k) c =
      rls.any (fun perms => capOf (dictFind (parsePermissionTokens (some perms)) k) c) := by
  rw [capOf_find_aggregate]
  apply any_ext
  intro perms _
  exact any_key_and_get _ (keysNodup_parse _) k c

theorem isSome_find_aggregate_roles (rls : List (List PyStr)) (k : PyStr) :
    (dictFind (aggregatePermissions rls) k).isSome =
      rls.any (fun perms => (dictFind (parsePermissionTokens (some perms)) k).isSome) := by
  rw [isSome_find_aggregate]
  apply any_ext
  intro perms _
  exact any_key _ (keysNodup_parse _) k

theorem dictFind_aggregate_perm {rls rls' : List (List PyStr)} (h : rls.Perm rls')
    (k : PyStr) :
    dictFind (aggregatePermissions rls) k = dictFind (aggregatePermissions rls') k := by
  have hsome : (dictFind (aggregatePermissions rls) k).isSome =
      (dictFind (aggregatePermissions rls') k).isSome := by
    rw [isSome_find_aggregate, isSome_find_aggregate]
    exact any_congr_perm h _
  cases hl : dictFind (aggregatePermissions rls) k with
  | none =>
    cases hl' : dictFind (aggregatePermissions rls') k with
    | none => rfl
    | some f' => rw [hl, hl'] at hsome; cases hsome
  | some f =>
    cases hl' : dictFind (aggregatePermissions rls') k with
    | none => rw [hl, hl'] at hsome; cases hsome
    | some f' =>
      congr 1
      apply Flags.ext_of_get
      intro c
      have h1 := capOf_find_aggregate rls k c
      have h2 := capOf_find_aggregate rls' k c
      rw [hl] at h1
      rw [hl'] at h2
      rw [capOf_some] at h1 h2
      rw [h1, h2]
      exact any_congr_perm h _

/-- C6: aggregation of effective permissions across roles is
order-independent — aggregating the decoded per-key flags of `[A, B]` and of
`[B, A]` (and of any two permutations of a role list) yields the same
key-to-flags mapping — and a capability is true in the aggregate exactly
when some role in the list grants it. -/
theorem aggregation_order_independent (A B : List PyStr)
    (rls rls' : List (List PyStr)) (hperm : rls.Perm rls') (k : PyStr) (c : Cap) :
    dictFind (aggregatePermissions [A, B]) k = dictFind (aggregatePermissions [B, A]) k
    ∧ dictFind (aggregatePermissions rls) k = dictFind (aggregatePermissions rls') k
    ∧ capOf (dictFind (aggregatePermissions rls) k) c =
        rls.any (fun perms => capOf (dictFind (parsePermissionTokens (some perms)) k) c) :=
  ⟨dictFind_aggregate_perm (List.Perm.swap B A []) k,
   dictFind_aggregate_perm hperm k,
   capOf_find_aggregate_roles rls k c⟩

/-- Witness for C6 at two concrete single-token roles. -/
theorem aggregation_order_independent_witness :
    (([["products.view".toList], ["products.create".toList]] : List (List PyStr)).Perm
      [["products.create".toList], ["products.view".toList]])
    ∧ (dictFind (aggregatePermissions
          [["products.view".toList], ["products.create".toList]]) "products.view".toList =
        dictFind (aggregatePermissions
          [["products.create".toList], ["products.view".toList]]) "products.view".toList
      ∧ dictFind (aggregatePermissions
          [["products.view".toList], ["products.create".toList]]) "products.view".toList =
        dictFind (aggregatePermissions
          [["products.create".toList], ["products.view".toList]]) "products.view".toList
      ∧ capOf (dictFind (aggregatePermissions
          [["products.view".toList], ["products.create".toList]]) "products.view".toList)
            Cap.create =
        ([["products.view".toList], ["products.create".toList]] : List (List PyStr)).any
          (fun perms =>
            capOf (dictFind (parsePermissionTokens (some perms)) "products.view".toList)
              Cap.create)) :=
  ⟨by decide,
   aggregation_order_independent ["products.view".toList] ["products.create".toList]
     [["products.view".toList], ["products.create".toList]]
     [["products.create".toList], ["products.view".toList]]
     (by decide) "products.view".toList Cap.create⟩

/-! ## String-level lemmas for the token codec round trip -/

theorem pyJoinDot_single (a : PyStr) : pyJoinDot [a] = a := by
  simp [pyJoinDot, List.intercalate, List.intersperse]

theorem pyJoinDot_cons (a : PyStr) (rest : List PyStr) (h : rest ≠ []) :
    pyJoinDot (a :: rest) = a ++ '.' :: pyJoinDot rest := by
  cases rest with
  | nil => exact absurd rfl h
  | cons b t => simp [pyJoinDot, List.intercalate, List.intersperse]

theorem pyJoinDot_concat (ss : List PyStr) (x : PyStr) (h : ss ≠ []) :
    pyJoinDot (ss ++ [x]) = pyJoinDot ss ++ '.' :: x := by
  induction ss with
  | nil => exact absurd rfl h
  | cons a rest ih =>
    cases rest with
    | nil => rw [pyJoinDot_single]; rw [List.cons_append, List.nil_append,
        pyJoinDot_cons a [x] (by simp), pyJoinDot_single]
    | cons b t =>
      rw [List.cons_append, pyJoinDot_cons a ((b :: t) ++ [x]) (by simp),
        ih (by simp), pyJoinDot_cons a (b :: t) (by simp)]
      simp

theorem mem_pyJoinDot (ss : List PyStr) (c : Char) (h : c ∈ pyJoinDot ss) :
    c = '.' ∨ ∃ s ∈ ss, c ∈ s := by
  induction ss with
  | nil => cases h
  | cons a rest ih =>
    cases rest with
    | nil =>
      rw [pyJoinDot_single] at h
      exact Or.inr ⟨a, by simp, h⟩
    | cons b t =>
      rw [pyJoinDot_cons a _ (by simp)] at h
      rcases List.mem_append.mp h with ha | hd
      · exact Or.inr ⟨a, by simp, ha⟩
      · rcases List.mem_cons.mp hd with rfl | hrest
        · exact Or.inl rfl
        · rcases ih hrest with hdot | ⟨s, hs, hcs⟩
          · exact Or.inl hdot
          · exact Or.inr ⟨s, List.mem_cons_of_mem _ hs, hcs⟩

theorem pyJoinDot_ne_nil (ss : List PyStr) (h : ss ≠ []) (h0 : ∀ s ∈ ss, s ≠ []) :
    pyJoinDot ss ≠ [] := by
  cases ss with
  | nil => exact absurd rfl h
  | cons a rest =>
    cases rest with
    | nil => rw [pyJoinDot_single]; exact h0 a (by simp)
    | cons b t => rw [pyJoinDot_cons a _ (by simp)]; simp

theorem dropWhile_eq_self_of_all {p : Char → Bool} (l : PyStr)
    (h : ∀ x ∈ l, p x = false) : l.dropWhile p = l := by
  cases l with
  | nil => rfl
  | cons a t => simp [List.dropWhile, h a (by simp)]

theorem pyStrip_eq_self (s : PyStr) (h : ∀ ch ∈ s, isPySpace ch = false) :
    pyStrip s = s := by
  unfold pyStrip
  rw [dropWhile_eq_self_of_all s h]
  rw [dropWhile_eq_self_of_all s.reverse (fun ch hch => h ch (List.mem_reverse.mp hch))]
  exact List.reverse_reverse s

theorem splitOn_pyJoinDot (ss : List PyStr) (h : ∀ s ∈ ss, '.' ∉ s) (hne : ss ≠ []) :
    (pyJoinDot ss).splitOn '.' = ss :=
  List.splitOn_intercalate ss '.' h hne

theorem rsplitHead_concat (P a : PyStr) (h : '.' ∉ a) :
    rsplitHead (P ++ '.' :: a) '.' = P := by
  unfold rsplitHead
  rw [if_pos (List.elem_iff.mpr (by simp))]
  rw [List.reverse_append, List.reverse_cons, List.append_assoc]
  have h1 : List.dropWhile (· != '.') a.reverse = [] := by
    rw [List.dropWhile_eq_nil_iff]
    intro x hx
    have : x ≠ '.' := fun hEq => h (hEq ▸ List.mem_reverse.mp hx)
    simp [this]
  rw [List.dropWhile_append, h1]
  simp [List.dropWhile]

theorem replaceAction_view_suffix (P a : PyStr) (ha : a ≠ "view".toList) :
    replaceAction (P ++ ".view".toList) a = P ++ '.' :: a := by
  unfold replaceAction
  have hsuf : (".view".toList).isSuffixOf (P ++ ".view".toList) = true :=
    List.isSuffixOf_iff_suffix.mpr ⟨P, rfl⟩
  rw [if_neg ha, if_pos hsuf]
  have hP : (P ++ ".view".toList) = P ++ '.' :: "view".toList := rfl
  rw [hP, rsplitHead_concat P "view".toList (by decide)]

theorem replaceAction_no_suffix (K a : PyStr) (ha : a ≠ "view".toList)
    (hsuf : (".view".toList).isSuffixOf K = false) :
    replaceAction K a = K ++ '.' :: a := by
  unfold replaceAction
  rw [if_neg ha, if_neg (by rw [hsuf]; simp)]


theorem goodSegs_concat (ss : List PyStr) (x : PyStr) (hss : goodSegs ss)
    (hx1 : x ≠ []) (hx2 : '.' ∉ x) (hx3 : ∀ ch ∈ x, isPySpace ch = false) :
    goodSegs (ss ++ [x]) := by
  refine ⟨by simp, ?_⟩
  intro s hs
  rcases List.mem_append.mp hs with h1 | h2
  · exact hss.2 s h1
  · rw [List.mem_singleton] at h2
    subst h2
    exact ⟨hx1, hx2, hx3⟩

theorem pyStrip_pyJoinDot (ss : List PyStr) (hss : goodSegs ss) :
    pyStrip (pyJoinDot ss) = pyJoinDot ss := by
  apply pyStrip_eq_self
  intro ch hch
  rcases mem_pyJoinDot ss ch hch with rfl | ⟨s, hs, hcs⟩
  · decide
  · exact (hss.2 s hs).2.2 ch hcs

theorem goodSegs_ne_nil_join (ss : List PyStr) (hss : goodSegs ss) :
    pyJoinDot ss ≠ [] :=
  pyJoinDot_ne_nil ss hss.1 (fun s hs => (hss.2 s hs).1)

theorem goodSegs_dotfree (ss : List PyStr) (hss : goodSegs ss) :
    ∀ s ∈ ss, '.' ∉ s :=
  fun s hs => (hss.2 s hs).2.1

/-- Decoding a view-form token built from a stem: the ".view" suffix is
dropped, the stem becomes the key and `can_view` is switched on. -/
theorem parseToken_stem_view (m : Dict Flags) (ss : List PyStr) (hss : goodSegs ss) :
    parseToken m (pyJoinDot (ss ++ ["view".toList])) =
      dictSet m (pyJoinDot ss)
        { ((dictFind m (pyJoinDot ss)).getD Flags.none) with can_view := true } := by
  have hgood : goodSegs (ss ++ ["view".toList]) :=
    goodSegs_concat ss _ hss (by decide) (by decide) (by decide)
  have hsplit : (pyJoinDot (ss ++ ["view".toList])).splitOn '.' = ss ++ ["view".toList] :=
    splitOn_pyJoinDot _ (goodSegs_dotfree _ hgood) (by simp)
  have htok_ne : pyJoinDot (ss ++ ["view".toList]) ≠ [] := goodSegs_ne_nil_join _ hgood
  have hstem_ne : pyJoinDot ss ≠ [] := goodSegs_ne_nil_join ss hss
  have hstem_strip : pyStrip (pyJoinDot ss) = pyJoinDot ss := pyStrip_pyJoinDot ss hss
  have hlv : pyLower "view".toList = "view".toList := by decide
  have c1 : (pyJoinDot (ss ++ ["view".toList])).isEmpty = false := by
    cases h : (pyJoinDot (ss ++ ["view".toList])).isEmpty
    · rfl
    · exact absurd (List.isEmpty_iff.mp h) htok_ne
  have c2 : (ss ++ ["view".toList]).isEmpty = false := by simp
  have c3 : actionsVocab.contains "view".toList = true := by decide
  have c4 : (pyJoinDot ss).isEmpty = false := by
    cases h : (pyJoinDot ss).isEmpty
    · rfl
    · exact absurd (List.isEmpty_iff.mp h) hstem_ne
  have c5 : ss.isEmpty = false := by
    cases h : ss.isEmpty
    · rfl
    · exact absurd (List.isEmpty_iff.mp h) hss.1
  simp only [parseToken, hsplit, List.getLastD_concat, List.dropLast_concat, hlv, c1, c2,
    c3, c5, Bool.false_eq_true, if_false, if_true, ne_eq, not_true_eq_false,
    not_false_eq_true, Bool.not_false, hstem_strip, c4, applyAction_view]

/-- Decoding an action token built from a stem: ".view" is re-appended to
form the canonical key and the action's flag (plus `can_view`) is set. -/
theorem parseToken_stem_act (m : Dict Flags) (ss : List PyStr) (a : PyStr)
    (hss : goodSegs ss)
    (ha1 : actionsVocab.contains a = true) (ha2 : a ≠ "view".toList)
    (ha3 : pyLower a = a) (ha4 : '.' ∉ a)
    (ha5 : a ≠ []) :
    parseToken m (pyJoinDot (ss ++ [a])) =
      dictSet m (pyJoinDot (ss ++ ["view".toList]))
        (applyAction a
          ((dictFind m (pyJoinDot (ss ++ ["view".toList]))).getD Flags.none)) := by
  have hgood : goodSegs (ss ++ [a]) := by
    refine goodSegs_concat ss a hss ha5 ha4 ?_
    -- every recognized action word is whitespace-free
    intro ch hch
    have : a ∈ actionsVocab := by
      obtain ⟨w, hw, hb⟩ := List.contains_iff_exists_mem_beq.mp ha1
      have : a = w := by simpa using hb
      rw [this]; exact hw
    fin_cases this <;> simp_all [isPySpace] <;> rcases hch with rfl | rfl | rfl | rfl | rfl | rfl <;> decide
  have hgoodv : goodSegs (ss ++ ["view".toList]) :=
    goodSegs_concat ss _ hss (by decide) (by decide) (by decide)
  have hsplit : (pyJoinDot (ss ++ [a])).splitOn '.' = ss ++ [a] :=
    splitOn_pyJoinDot _ (goodSegs_dotfree _ hgood) (by simp)
  have htok_ne : pyJoinDot (ss ++ [a]) ≠ [] := goodSegs_ne_nil_join _ hgood
  have hkey_ne : pyJoinDot (ss ++ ["view".toList]) ≠ [] := goodSegs_ne_nil_join _ hgoodv
  have hkey_strip : pyStrip (pyJoinDot (ss ++ ["view".toList])) =
      pyJoinDot (ss ++ ["view".toList]) := pyStrip_pyJoinDot _ hgoodv
  have c1 : (pyJoinDot (ss ++ [a])).isEmpty = false := by
    cases h : (pyJoinDot (ss ++ [a])).isEmpty
    · rfl
    · exact absurd (List.isEmpty_iff.mp h) htok_ne
  have c2 : (ss ++ [a]).isEmpty = false := by simp
  have c3 : (ss ++ ["view".toList]).isEmpty = false := by simp
  have c4 : (pyJoinDot (ss ++ ["view".toList])).isEmpty = false := by
    cases h : (pyJoinDot (ss ++ ["view".toList])).isEmpty
    · rfl
    · exact absurd (List.isEmpty_iff.mp h) hkey_ne
  simp only [parseToken, hsplit, List.getLastD_concat, List.dropLast_concat, ha3, ha1, c1,
    c2, c3, Bool.false_eq_true, if_false, if_true, ne_eq, ha2, not_true_eq_false,
    not_false_eq_true, Bool.not_false, hkey_strip, c4]

/-! ## C1: the encode/decode round trip -/

/-- C1 counterexample: for the catalog key "products.view" with only
`can_view` requested, the encoded token list is ["products.view"], whose
decode keys the flags under "products" (the ".view" suffix is stripped), so
the round trip does not reproduce the flags on the original key. -/
theorem roundtrip_view_only_counterexample :
    parsePermissionTokens
        (some (buildTokens "products.view".toList (gridOf true false false false false))) =
      [("products".toList, ⟨true, false, false, false, false⟩)]
    ∧ dictFind
        (parsePermissionTokens
          (some (buildTokens "products.view".toList (gridOf true false false false false))))
        "products.view".toList = Option.none := by
  constructor <;> decide

/-- C1 amended: writing S for a well-formed stem and J for joining segments
with dots, encode-then-decode behaves as follows.  For a key of the catalog
form `J(S).view`: the view token decodes under the stripped key `J(S)`
(view only) and the action tokens decode under the original key with the
requested action flags plus forced `can_view`; the original key therefore
carries exactly the requested non-view flags (with `can_view` forced true)
whenever some non-view flag is requested, and the view flag alone lands
under the stripped key, never under the original key.  For a key `J(S)`
whose last segment is not a recognized action and which does not end in
".view": the view token decodes verbatim under `J(S)` and the action tokens
decode under the separate key `J(S).view`. -/
theorem roundtrip_decode_of_encode (ss : List PyStr) (hss : goodSegs ss) (g : PermGrid)
    (hg : (g.can_view || g.can_create || g.can_edit || g.can_delete || g.can_export)
      = true) :
    (parsePermissionTokens (some (buildTokens (pyJoinDot (ss ++ ["view".toList])) g)) =
      (if g.can_view = true
        then [(pyJoinDot ss, (⟨true, false, false, false, false⟩ : Flags))] else [])
      ++ (if (g.can_create || g.can_edit || g.can_delete || g.can_export) = true
        then [(pyJoinDot (ss ++ ["view".toList]),
               (⟨true, g.can_create, g.can_edit, g.can_delete, g.can_export⟩ : Flags))]
          else []))
    ∧ (actionsVocab.contains (pyLower (ss.getLastD [])) = false →
       (".view".toList).isSuffixOf (pyJoinDot ss) = false →
       parsePermissionTokens (some (buildTokens (pyJoinDot ss) g)) =
        (if g.can_view = true
          then [(pyJoinDot ss, (⟨true, false, false, false, false⟩ : Flags))] else [])
        ++ (if (g.can_create || g.can_edit || g.can_delete || g.can_export) = true
          then [(pyJoinDot (ss ++ ["view".toList]),
                 (⟨true, g.can_create, g.can_edit, g.can_delete, g.can_export⟩ : Flags))]
            else [])) := by
  have hKP : pyJoinDot (ss ++ ["view".toList]) = pyJoinDot ss ++ '.' :: "view".toList :=
    pyJoinDot_concat ss _ hss.1
  have hJc : pyJoinDot (ss ++ ["create".toList]) = pyJoinDot ss ++ '.' :: "create".toList :=
    pyJoinDot_concat ss _ hss.1
  have hJe : pyJoinDot (ss ++ ["edit".toList]) = pyJoinDot ss ++ '.' :: "edit".toList :=
    pyJoinDot_concat ss _ hss.1
  have hJd : pyJoinDot (ss ++ ["delete".toList]) = pyJoinDot ss ++ '.' :: "delete".toList :=
    pyJoinDot_concat ss _ hss.1
  have hJx : pyJoinDot (ss ++ ["export".toList]) = pyJoinDot ss ++ '.' :: "export".toList :=
    pyJoinDot_concat ss _ hss.1
  -- replaceAction on the ".view"-suffixed key produces the stem action tokens
  have hKview : pyJoinDot ss ++ '.' :: "view".toList = pyJoinDot ss ++ ".view".toList := rfl
  have hrc : replaceAction (pyJoinDot (ss ++ ["view".toList])) "create".toList =
      pyJoinDot (ss ++ ["create".toList]) := by
    rw [hKP, hKview, replaceAction_view_suffix _ _ (by decide), ← hJc]
  have hre : replaceAction (pyJoinDot (ss ++ ["view".toList])) "edit".toList =
      pyJoinDot (ss ++ ["edit".toList]) := by
    rw [hKP, hKview, replaceAction_view_suffix _ _ (by decide), ← hJe]
  have hrd : replaceAction (pyJoinDot (ss ++ ["view".toList])) "delete".toList =
      pyJoinDot (ss ++ ["delete".toList]) := by
    rw [hKP, hKview, replaceAction_view_suffix _ _ (by decide), ← hJd]
  have hrx : replaceAction (pyJoinDot (ss ++ ["view".toList])) "export".toList =
      pyJoinDot (ss ++ ["export".toList]) := by
    rw [hKP, hKview, replaceAction_view_suffix _ _ (by decide), ← hJx]
  -- key distinctness, as boolean-equality facts
  have tokne : ∀ u v : PyStr, u ≠ v →
      (((pyJoinDot ss ++ '.' :: u : PyStr)) == (pyJoinDot ss ++ '.' :: v)) = false := by
    intro u v huv
    apply beq_eq_false_iff_ne.mpr
    intro h
    have h2 := List.append_cancel_left h
    simp only [List.cons.injEq, true_and] at h2
    exact huv h2
  have stemne : ∀ u : PyStr,
      (((pyJoinDot ss ++ '.' :: u : PyStr)) == pyJoinDot ss) = false := by
    intro u
    apply beq_eq_false_iff_ne.mpr
    intro h
    have := congrArg List.length h
    simp only [List.length_append, List.length_cons] at this
    omega
  have stemne2 : ∀ u : PyStr,
      ((pyJoinDot ss : PyStr) == (pyJoinDot ss ++ '.' :: u)) = false := by
    intro u
    apply beq_eq_false_iff_ne.mpr
    intro h
    have := congrArg List.length h
    simp only [List.length_append, List.length_cons] at this
    omega
  have bCK : ((pyJoinDot (ss ++ ["create".toList]) : PyStr) ==
      pyJoinDot (ss ++ ["view".toList])) = false := by
    rw [hJc, hKP]; exact tokne _ _ (by decide)
  have bEK : ((pyJoinDot (ss ++ ["edit".toList]) : PyStr) ==
      pyJoinDot (ss ++ ["view".toList])) = false := by
    rw [hJe, hKP]; exact tokne _ _ (by decide)
  have bEC : ((pyJoinDot (ss ++ ["edit".toList]) : PyStr) ==
      pyJoinDot (ss ++ ["create".toList])) = false := by
    rw [hJe, hJc]; exact tokne _ _ (by decide)
  have bDK : ((pyJoinDot (ss ++ ["delete".toList]) : PyStr) ==
      pyJoinDot (ss ++ ["view".toList])) = false := by
    rw [hJd, hKP]; exact tokne _ _ (by decide)
  have bDC : ((pyJoinDot (ss ++ ["delete".toList]) : PyStr) ==
      pyJoinDot (ss ++ ["create".toList])) = false := by
    rw [hJd, hJc]; exact tokne _ _ (by decide)
  have bDE : ((pyJoinDot (ss ++ ["delete".toList]) : PyStr) ==
      pyJoinDot (ss ++ ["edit".toList])) = false := by
    rw [hJd, hJe]; exact tokne _ _ (by decide)
  have bXK : ((pyJoinDot (ss ++ ["export".toList]) : PyStr) ==
      pyJoinDot (ss ++ ["view".toList])) = false := by
    rw [hJx, hKP]; exact tokne _ _ (by decide)
  have bXC : ((pyJoinDot (ss ++ ["export".toList]) : PyStr) ==
      pyJoinDot (ss ++ ["create".toList])) = false := by
    rw [hJx, hJc]; exact tokne _ _ (by decide)
  have bXE : ((pyJoinDot (ss ++ ["export".toList]) : PyStr) ==
      pyJoinDot (ss ++ ["edit".toList])) = false := by
    rw [hJx, hJe]; exact tokne _ _ (by decide)
  have bXD : ((pyJoinDot (ss ++ ["export".toList]) : PyStr) ==
      pyJoinDot (ss ++ ["delete".toList])) = false := by
    rw [hJx, hJd]; exact tokne _ _ (by decide)
  have bPK : ((pyJoinDot ss : PyStr) == pyJoinDot (ss ++ ["view".toList])) = false := by
    rw [hKP]; exact stemne2 _
  have bCP : ((pyJoinDot (ss ++ ["create".toList]) : PyStr) == pyJoinDot ss) = false := by
    rw [hJc]; exact stemne _
  have bEP : ((pyJoinDot (ss ++ ["edit".toList]) : PyStr) == pyJoinDot ss) = false := by
    rw [hJe]; exact stemne _
  have bDP : ((pyJoinDot (ss ++ ["delete".toList]) : PyStr) == pyJoinDot ss) = false := by
    rw [hJd]; exact stemne _
  have bXP : ((pyJoinDot (ss ++ ["export".toList]) : PyStr) == pyJoinDot ss) = false := by
    rw [hJx]; exact stemne _
  -- decode steps
  have hstepK : ∀ m, parseToken m (pyJoinDot (ss ++ ["view".toList])) =
      dictSet m (pyJoinDot ss)
        { ((dictFind m (pyJoinDot ss)).getD Flags.none) with can_view := true } :=
    fun m => parseToken_stem_view m ss hss
  have hstepC : ∀ m, parseToken m (pyJoinDot (ss ++ ["create".toList])) =
      dictSet m (pyJoinDot (ss ++ ["view".toList]))
        (applyAction "create".toList
          ((dictFind m (pyJoinDot (ss ++ ["view".toList]))).getD Flags.none)) :=
    fun m => parseToken_stem_act m ss _ hss (by decide) (by decide) (by decide)
      (by decide) (by decide)
  have hstepE : ∀ m, parseToken m (pyJoinDot (ss ++ ["edit".toList])) =
      dictSet m (pyJoinDot (ss ++ ["view".toList]))
        (applyAction "edit".toList
          ((dictFind m (pyJoinDot (ss ++ ["view".toList]))).getD Flags.none)) :=
    fun m => parseToken_stem_act m ss _ hss (by decide) (by decide) (by decide)
      (by decide) (by decide)
  have hstepD : ∀ m, parseToken m (pyJoinDot (ss ++ ["delete".toList])) =
      dictSet m (pyJoinDot (ss ++ ["view".toList]))
        (applyAction "delete".toList
          ((dictFind m (pyJoinDot (ss ++ ["view".toList]))).getD Flags.none)) :=
    fun m => parseToken_stem_act m ss _ hss (by decide) (by decide) (by decide)
      (by decide) (by decide)
  have hstepX : ∀ m, parseToken m (pyJoinDot (ss ++ ["export".toList])) =
      dictSet m (pyJoinDot (ss ++ ["view".toList]))
        (applyAction "export".toList
          ((dictFind m (pyJoinDot (ss ++ ["view".toList]))).getD Flags.none)) :=
    fun m => parseToken_stem_act m ss _ hss (by decide) (by decide) (by decide)
      (by decide) (by decide)
  constructor
  · rcases g with ⟨mid, v, c, e, d, x⟩
    simp only at hg
    cases v <;> cases c <;> cases e <;> cases d <;> cases x <;>
      first
      | exact absurd hg (by decide)
      | (simp only [buildTokens, addGridTokens, setAdd, hrc, hre, hrd, hrx,
          List.contains_cons, List.contains_nil, List.elem_nil, List.elem_cons,
          bCK, bEK, bEC, bDK, bDC, bDE, bXK, bXC, bXE, bXD,
          Bool.or_false, Bool.false_or, Bool.or_self, if_true, if_false,
          Bool.false_eq_true, Bool.true_eq_false, ite_true, ite_false,
          List.nil_append, List.cons_append,
          parsePermissionTokens, List.foldl_cons, List.foldl_nil,
          hstepK, hstepC, hstepE, hstepD, hstepX,
          dictSet, dictFind, List.find?, bPK, beq_self_eq_true,
          Option.map_some, Option.map_none, Option.getD_some, Option.getD_none,
          Flags.none, applyAction_view, applyAction_create, applyAction_edit,
          applyAction_del, applyAction_exp, Option.map_none', Option.map_some']
         try rfl)
  · intro hact hsuf
    have hPne : pyJoinDot ss ≠ [] := goodSegs_ne_nil_join ss hss
    have hPstrip : pyStrip (pyJoinDot ss) = pyJoinDot ss := pyStrip_pyJoinDot ss hss
    have hstepP : ∀ m, parseToken m (pyJoinDot ss) =
        dictSet m (pyJoinDot ss)
          { ((dictFind m (pyJoinDot ss)).getD Flags.none) with can_view := true } := by
      intro m
      apply parseToken_unrecognized m _ hPne hPstrip
      rw [splitOn_pyJoinDot ss (goodSegs_dotfree ss hss) hss.1]
      exact hact
    have hrc2 : replaceAction (pyJoinDot ss) "create".toList =
        pyJoinDot (ss ++ ["create".toList]) := by
      rw [replaceAction_no_suffix _ _ (by decide) hsuf, ← hJc]
    have hre2 : replaceAction (pyJoinDot ss) "edit".toList =
        pyJoinDot (ss ++ ["edit".toList]) := by
      rw [replaceAction_no_suffix _ _ (by decide) hsuf, ← hJe]
    have hrd2 : replaceAction (pyJoinDot ss) "delete".toList =
        pyJoinDot (ss ++ ["delete".toList]) := by
      rw [replaceAction_no_suffix _ _ (by decide) hsuf, ← hJd]
    have hrx2 : replaceAction (pyJoinDot ss) "export".toList =
        pyJoinDot (ss ++ ["export".toList]) := by
      rw [replaceAction_no_suffix _ _ (by decide) hsuf, ← hJx]
    rcases g with ⟨mid, v, c, e, d, x⟩
    simp only at hg
    cases v <;> cases c <;> cases e <;> cases d <;> cases x <;>
      first
      | exact absurd hg (by decide)
      | (simp only [buildTokens, addGridTokens, setAdd, hrc2, hre2, hrd2, hrx2,
          List.contains_cons, List.contains_nil, List.elem_nil, List.elem_cons,
          bCK, bEK, bEC, bDK, bDC, bDE, bXK, bXC, bXE, bXD, bCP, bEP, bDP, bXP,
          Bool.or_false, Bool.false_or, Bool.or_self, if_true, if_false,
          Bool.false_eq_true, Bool.true_eq_false, ite_true, ite_false,
          List.nil_append, List.cons_append,
          parsePermissionTokens, List.foldl_cons, List.foldl_nil,
          hstepP, hstepC, hstepE, hstepD, hstepX,
          dictSet, dictFind, List.find?, bPK, beq_self_eq_true,
          Option.map_some, Option.map_none, Option.getD_some, Option.getD_none,
          Flags.none, applyAction_view, applyAction_create, applyAction_edit,
          applyAction_del, applyAction_exp, Option.map_none', Option.map_some']
         try rfl)

/-- Witness for C1 amended at the stem ["products"], requesting view+create. -/
theorem roundtrip_decode_of_encode_witness :
    goodSegs ["products".toList]
    ∧ ((parsePermissionTokens
          (some (buildTokens (pyJoinDot (["products".toList] ++ ["view".toList]))
            (gridOf true true false false false))) =
        (if (gridOf true true false false false).can_view = true
          then [(pyJoinDot ["products".toList], (⟨true, false, false, false, false⟩ : Flags))]
          else [])
        ++ (if ((gridOf true true false false false).can_create
              || (gridOf true true false false false).can_edit
              || (gridOf true true false false false).can_delete
              || (gridOf true true false false false).can_export) = true
          then [(pyJoinDot (["products".toList] ++ ["view".toList]),
                 (⟨true, (gridOf true true false false false).can_create,
                   (gridOf true true false false false).can_edit,
                   (gridOf true true false false false).can_delete,
                   (gridOf true true false false false).can_export⟩ : Flags))]
          else []))
      ∧ (actionsVocab.contains (pyLower (["products".toList].getLastD [])) = false →
         (".view".toList).isSuffixOf (pyJoinDot ["products".toList]) = false →
         parsePermissionTokens
            (some (buildTokens (pyJoinDot ["products".toList])
              (gridOf true true false false false))) =
          (if (gridOf true true false false false).can_view = true
            then [(pyJoinDot ["products".toList],
                   (⟨true, false, false, false, false⟩ : Flags))]
            else [])
          ++ (if ((gridOf true true false false false).can_create
                || (gridOf true true false false false).can_edit
                || (gridOf true true false false false).can_delete
                || (gridOf true true false false false).can_export) = true
            then [(pyJoinDot (["products".toList] ++ ["view".toList]),
                   (⟨true, (gridOf true true false false false).can_create,
                     (gridOf true true false false false).can_edit,
                     (gridOf true true false false false).can_delete,
                     (gridOf true true false false false).can_export⟩ : Flags))]
            else []))) :=
  ⟨⟨by decide, by decide⟩,
   roundtrip_decode_of_encode ["products".toList] ⟨by decide, by decide⟩
     (gridOf true true false false false) (by decide)⟩

/-! ## C5: navigation building -/

instance : IsTotal ModuleRow moduleLe :=
  ⟨fun a b => Int.le_total a.sort_order b.sort_order⟩

instance : IsTrans ModuleRow moduleLe :=
  ⟨fun _ _ _ hab hbc => le_trans hab hbc⟩

instance : IsTotal MenuItemRow itemLe :=
  ⟨fun a b => Int.le_total a.sort_order b.sort_order⟩

instance : IsTrans MenuItemRow itemLe :=
  ⟨fun _ _ _ hab hbc => le_trans hab hbc⟩

theorem pairwise_filterMap_of {α β : Type} {R : α → α → Prop} {S : β → β → Prop}
    (f : α → Option β)
    (hf : ∀ a b a2 b2, f a = some a2 → f b = some b2 → R a b → S a2 b2) :
    ∀ {l : List α}, l.Pairwise R → (l.filterMap f).Pairwise S := by
  intro l hl
  induction hl with
  | nil => simp
  | @cons a l2 hhead htail ih =>
    cases hfa : f a with
    | none => simpa [List.filterMap_cons, hfa] using ih
    | some b =>
      simp only [List.filterMap_cons, hfa]
      refine List.Pairwise.cons ?_ ih
      intro b2 hb2
      obtain ⟨a2, ha2mem, ha2⟩ := List.mem_filterMap.mp hb2
      exact hf a a2 b b2 hfa ha2 (hhead a2 ha2mem)

theorem navModuleFor_sort_order (ai : List MenuItemRow) (m : ModuleRow) (nm : NavModule)
    (h : navModuleFor ai m = some nm) : nm.sort_order = m.sort_order := by
  simp only [navModuleFor] at h
  split at h
  · cases h
  · cases h
    rfl

theorem navModuleFor_mem_items (ai : List MenuItemRow) (m : ModuleRow) (nm : NavModule)
    (h : navModuleFor ai m = some nm) (it : NavMenuItem) (hit : it ∈ nm.items) :
    ∃ item ∈ ai, it.permission_key = item.permission_key ∧ it.route = item.route
      ∧ routeTruthy item.route = true := by
  simp only [navModuleFor] at h
  split at h
  · cases h
  · cases h
    simp only [List.mem_map] at hit
    obtain ⟨item, hmem, hconv⟩ := hit
    rw [List.mem_filter] at hmem
    have hmem2 : item ∈ (ai.filter (fun i => i.module_id == m.id)).insertionSort itemLe :=
      hmem.1
    have hmem3 : item ∈ ai.filter (fun i => i.module_id == m.id) :=
      (List.perm_insertionSort itemLe _).mem_iff.mp hmem2
    refine ⟨item, (List.mem_filter.mp hmem3).1, ?_, ?_, hmem.2⟩
    · rw [← hconv]
    · rw [← hconv]

theorem navModuleFor_items_sorted (ai : List MenuItemRow) (m : ModuleRow) (nm : NavModule)
    (h : navModuleFor ai m = some nm) :
    nm.items.Pairwise (fun a b => a.sort_order ≤ b.sort_order) := by
  simp only [navModuleFor] at h
  split at h
  · cases h
  · cases h
    have hsorted : ((ai.filter (fun i => i.module_id == m.id)).insertionSort
        itemLe).Pairwise itemLe :=
      List.sorted_insertionSort itemLe _
    have hfiltered : (((ai.filter (fun i => i.module_id == m.id)).insertionSort
        itemLe).filter (fun item => routeTruthy item.route)).Pairwise itemLe :=
      hsorted.sublist (List.filter_sublist _)
    rw [List.pairwise_map]
    exact hfiltered

/-- C5: the navigation built by `get_navigation_for_user` contains no module
with zero items, no item whose permission key is outside the supplied
allowed set, no item lacking a navigable route, and its modules are sorted
by module sort order with each module's items sorted by item sort order. -/
theorem navigation_properties (s : SessionState) (tid : DbId) (allowed : List PyStr)
    (s2 : SessionState) (nav : List NavModule)
    (h : getNavigationForUser s tid allowed = (s2, Except.ok nav)) :
    (∀ m ∈ nav, m.items ≠ []
      ∧ m.items.Pairwise (fun a b => a.sort_order ≤ b.sort_order)
      ∧ ∀ it ∈ m.items, allowed.contains it.permission_key = true
          ∧ routeTruthy it.route = true)
    ∧ nav.Pairwise (fun a b => a.sort_order ≤ b.sort_order) := by
  rcases hA : getAvailableMenusForTenant s tid with ⟨s1, res⟩
  cases res with
  | error e =>
    rw [getNavigationForUser, hA] at h
    cases h
  | ok available =>
    rw [getNavigationForUser, hA] at h
    have hnav : nav = ((available.modules.insertionSort moduleLe).filterMap
        (navModuleFor (available.menu_items.filter
          (fun item => allowed.contains item.permission_key)))).filter
        (fun m => ¬ m.items.isEmpty) := by
      have := congrArg Prod.snd h
      simpa using this.symm
    subst hnav
    constructor
    · intro m hm
      have hm2 := List.mem_filter.mp hm
      have hmod : ∃ module ∈ available.modules.insertionSort moduleLe,
          navModuleFor (available.menu_items.filter
            (fun item => allowed.contains item.permission_key)) module = some m :=
        List.mem_filterMap.mp hm2.1
      obtain ⟨module, _, hsome⟩ := hmod
      refine ⟨?_, navModuleFor_items_sorted _ _ _ hsome, ?_⟩
      · intro hempty
        have : m.items.isEmpty = true := by rw [hempty]; rfl
        simp [this] at hm2
      · intro it hit
        obtain ⟨item, hmemai, hpk, hrt, htruthy⟩ :=
          navModuleFor_mem_items _ _ _ hsome it hit
        have hcontains := (List.mem_filter.mp hmemai).2
        constructor
        · rw [hpk]; exact hcontains
        · rw [hrt]; exact htruthy
    · have hsorted : (available.modules.insertionSort moduleLe).Pairwise moduleLe :=
        List.sorted_insertionSort moduleLe _
      have hfm := pairwise_filterMap_of
        (navModuleFor (available.menu_items.filter
          (fun item => allowed.contains item.permission_key)))
        (S := fun (a b : NavModule) => a.sort_order ≤ b.sort_order)
        (fun a b a2 b2 ha hb hR => by
          show a2.sort_order ≤ b2.sort_order
          rw [navModuleFor_sort_order _ _ _ ha, navModuleFor_sort_order _ _ _ hb]
          exact hR)
        hsorted
      exact hfm.sublist (List.filter_sublist _)

/-- Witness for C5 on a one-module, one-item database. -/
theorem navigation_properties_witness :
    (∀ m ∈ [navDemoModule], m.items ≠ []
      ∧ m.items.Pairwise (fun a b => a.sort_order ≤ b.sort_order)
      ∧ ∀ it ∈ m.items, (["products.view".toList] : List PyStr).contains it.permission_key
            = true
          ∧ routeTruthy it.route = true)
    ∧ ([navDemoModule]).Pairwise (fun a b => a.sort_order ≤ b.sort_order) :=
  navigation_properties ⟨navDemoDb, navDemoDb⟩ 1 ["products.view".toList]
    ⟨navDemoDb, navDemoDb⟩ [navDemoModule] (by decide)

/-! ## C4, C9, C10: role mutation -/

/-- Available-menus resolution when the tenant's subscription-plan link
resolves: the session is untouched and the returned menu items are exactly
the plan-entitled ones. -/
theorem getAvailableMenus_resolved (s : SessionState) (tid : DbId)
    (tenant : TenantRow) (plan : PlanRow)
    (htenant : s.db.tenants.find? (fun t => t.id == tid) = some tenant)
    (hplan : tenant.subscription_plan_id.bind
      (fun pid => s.db.plans.find? (fun (p : PlanRow) => p.id == pid)) = some plan) :
    ∃ av : AvailableMenus, getAvailableMenusForTenant s tid = (s, Except.ok av)
      ∧ (∀ x, x ∈ av.menu_items ↔ x ∈ entitledMenuItems s.db plan.id) := by
  simp only [getAvailableMenusForTenant, htenant, hplan]
  exact ⟨_, rfl, fun x => (List.perm_insertionSort itemLe _).mem_iff⟩

theorem encodeGridStep_ok (av : AvailableMenus) (tokens : List PyStr) (pd : PermGrid)
    (hok : (av.menu_items.map (·.id)).contains pd.menu_item_id = true) :
    ∃ t2, encodeGridStep av tokens pd = Except.ok t2 := by
  simp only [encodeGridStep]
  rw [if_neg (not_not_intro hok)]
  cases hf : av.menu_items.find? (fun item => item.id == pd.menu_item_id) with
  | none => exact ⟨tokens, rfl⟩
  | some item =>
    by_cases hk : item.permission_key.isEmpty = true
    · exact ⟨tokens, by simp [hk]⟩
    · exact ⟨addGridTokens tokens item.permission_key pd, by simp [hk]⟩

theorem encodeGrid_error (av : AvailableMenus) (grid : List PermGrid)
    (hbad : ∃ g ∈ grid, (av.menu_items.map (·.id)).contains g.menu_item_id = false) :
    encodeGrid av grid =
      Except.error ⟨400, "Menu item not available for your subscription plan".toList⟩ := by
  have h : ∀ (gr : List PermGrid) (acc : List PyStr),
      (∃ g ∈ gr, (av.menu_items.map (·.id)).contains g.menu_item_id = false) →
      gr.foldlM (encodeGridStep av) acc =
        Except.error ⟨400, "Menu item not available for your subscription plan".toList⟩ := by
    intro gr
    induction gr with
    | nil => intro acc hex; simp at hex
    | cons g rest ih =>
      intro acc hex
      rw [List.foldlM_cons]
      cases hg : (av.menu_items.map (·.id)).contains g.menu_item_id with
      | true =>
        obtain ⟨t2, ht2⟩ := encodeGridStep_ok av acc g hg
        rw [ht2]
        have hrest : ∃ g2 ∈ rest,
            (av.menu_items.map (·.id)).contains g2.menu_item_id = false := by
          obtain ⟨g0, hg0mem, hg0⟩ := hex
          rcases List.mem_cons.mp hg0mem with rfl | hmem
          · rw [hg] at hg0; cases hg0
          · exact ⟨g0, hmem, hg0⟩
        exact ih t2 hrest
      | false =>
        have hstep : encodeGridStep av acc g =
            Except.error ⟨400, "Menu item not available for your subscription plan".toList⟩ := by
          simp only [encodeGridStep]
          rw [if_pos (by simp only [hg, Bool.false_eq_true, not_false_eq_true])]
        rw [hstep]
        rfl
  exact h grid [] hbad

/-- Reduction of `create_role` on the failing-entitlement path: with a fresh
name and a resolving plan link, the role row is flushed with an empty
permission list, then the validation error is raised with nothing committed
and no rollback. -/
theorem createRole_entitlement_reduction (s : SessionState) (tid : DbId)
    (tenant : TenantRow) (plan : PlanRow) (pc : RoleCreatePayload)
    (htenant : s.db.tenants.find? (fun t => t.id == tid) = some tenant)
    (hplan : tenant.subscription_plan_id.bind
      (fun pid => s.db.plans.find? (fun (p : PlanRow) => p.id == pid)) = some plan)
    (hname : s.db.roles.find?
      (fun r => r.tenant_id == some tid && r.name == pc.name) = Option.none)
    (hbad : ∃ g ∈ pc.permissions, ∀ item ∈ entitledMenuItems s.db plan.id,
        item.id ≠ g.menu_item_id) :
    createRole s tid pc =
      (⟨{ s.db with
            roles := s.db.roles ++
              [⟨s.db.next_id, some tid, pc.name, pc.description, [], false⟩],
            next_id := s.db.next_id + 1 },
        s.committed⟩,
       Except.error ⟨400, "Menu item not available for your subscription plan".toList⟩) := by
  obtain ⟨av, hav, hmem⟩ := getAvailableMenus_resolved s tid tenant plan htenant hplan
  have hbad2 : ∃ g ∈ pc.permissions,
      (av.menu_items.map (·.id)).contains g.menu_item_id = false := by
    obtain ⟨g, hgmem, hno⟩ := hbad
    refine ⟨g, hgmem, ?_⟩
    cases hc : (av.menu_items.map (·.id)).contains g.menu_item_id with
    | false => rfl
    | true =>
      exfalso
      obtain ⟨mid, hmidmem, hb⟩ := List.contains_iff_exists_mem_beq.mp hc
      obtain ⟨item, hitem, hid⟩ := List.mem_map.mp hmidmem
      have hient : item ∈ entitledMenuItems s.db plan.id := (hmem item).mp hitem
      have hgm : g.menu_item_id = mid := by simpa using hb
      exact hno item hient (hid.trans hgm.symm)
  simp only [createRole, hname, hav]
  rw [encodeGrid_error av pc.permissions hbad2]

/-- Reduction of `update_role` on the failing-entitlement path: the pending
name/description changes sit in the session, the validation error is raised
by the grid loop and nothing is committed. -/
theorem updateRole_grid_error_reduction (s : SessionState) (rid tid : DbId)
    (role : RoleRow) (pu : RoleUpdatePayload) (gridU : List PermGrid)
    (tenant : TenantRow) (plan : PlanRow)
    (hrole : s.db.roles.find?
      (fun r => r.id == rid && r.tenant_id == some tid) = some role)
    (hsys : role.is_system_role = false)
    (hname : pu.name = Option.none ∨ ∃ n, pu.name = some n ∧
      s.db.roles.find? (fun r => r.tenant_id == some tid && r.name == n && r.id != rid)
        = Option.none)
    (hpu : pu.permissions = some gridU)
    (htenant : s.db.tenants.find? (fun t => t.id == tid) = some tenant)
    (hplan : tenant.subscription_plan_id.bind
      (fun pid => s.db.plans.find? (fun (p : PlanRow) => p.id == pid)) = some plan)
    (hbad : ∃ g ∈ gridU, ∀ item ∈ entitledMenuItems s.db plan.id,
        item.id ≠ g.menu_item_id) :
    updateRole s rid tid pu =
      (⟨{ s.db with roles := s.db.roles.map (fun r => if r.id == role.id then roleAfterUpdate role pu else r) },
        s.committed⟩,
       Except.error ⟨400, "Menu item not available for your subscription plan".toList⟩) := by
  have htenant2 : (⟨{ s.db with roles := s.db.roles.map (fun r => if r.id == role.id then roleAfterUpdate role pu else r) },
      s.committed⟩ : SessionState).db.tenants.find? (fun t => t.id == tid) = some tenant :=
    htenant
  have hplan2 : tenant.subscription_plan_id.bind
      (fun pid => (⟨{ s.db with roles := s.db.roles.map (fun r => if r.id == role.id then roleAfterUpdate role pu else r) },
        s.committed⟩ : SessionState).db.plans.find? (fun (p : PlanRow) => p.id == pid))
      = some plan := hplan
  obtain ⟨av, hav, hmem⟩ := getAvailableMenus_resolved _ tid tenant plan htenant2 hplan2
  have hbad2 : ∃ g ∈ gridU,
      (av.menu_items.map (·.id)).contains g.menu_item_id = false := by
    obtain ⟨g, hgmem, hno⟩ := hbad
    refine ⟨g, hgmem, ?_⟩
    cases hc : (av.menu_items.map (·.id)).contains g.menu_item_id with
    | false => rfl
    | true =>
      exfalso
      obtain ⟨mid, hmidmem, hb⟩ := List.contains_iff_exists_mem_beq.mp hc
      obtain ⟨item, hitem, hid⟩ := List.mem_map.mp hmidmem
      have hient : item ∈ entitledMenuItems s.db plan.id := (hmem item).mp hitem
      have hgm : g.menu_item_id = mid := by simpa using hb
      exact hno item hient (hid.trans hgm.symm)
  simp only [updateRole, hrole, hsys, Bool.false_eq_true, if_false]
  rcases hname with hn | ⟨n, hn, hfind⟩
  · simp only [hn, hpu, hav]
    rw [encodeGrid_error av gridU hbad2]
  · simp only [hn, hfind, hpu, hav]
    rw [encodeGrid_error av gridU hbad2]

/-- C9: `create_role` is not atomic on validation failure — the new role row
(with an empty permission list) is added and flushed into the session before
the grid is validated, so when the entitlement error is raised the session
already holds the new role and the service performs no rollback (nothing is
committed). -/
theorem create_role_not_atomic (s : SessionState) (tid : DbId)
    (tenant : TenantRow) (plan : PlanRow) (pc : RoleCreatePayload)
    (htenant : s.db.tenants.find? (fun t => t.id == tid) = some tenant)
    (hplan : tenant.subscription_plan_id.bind
      (fun pid => s.db.plans.find? (fun (p : PlanRow) => p.id == pid)) = some plan)
    (hname : s.db.roles.find?
      (fun r => r.tenant_id == some tid && r.name == pc.name) = Option.none)
    (hbad : ∃ g ∈ pc.permissions, ∀ item ∈ entitledMenuItems s.db plan.id,
        item.id ≠ g.menu_item_id) :
    createRole s tid pc =
      (⟨{ s.db with
            roles := s.db.roles ++
              [⟨s.db.next_id, some tid, pc.name, pc.description, [], false⟩],
            next_id := s.db.next_id + 1 },
        s.committed⟩,
       Except.error ⟨400, "Menu item not available for your subscription plan".toList⟩) :=
  createRole_entitlement_reduction s tid tenant plan pc htenant hplan hname hbad

/-- Witness for C9 on a concrete database: the flushed role is visible in
the session with an empty permission list while nothing is committed. -/
theorem create_role_not_atomic_witness :
    createRole ⟨mutDemoDb, mutDemoDb⟩ 1
        ⟨"new".toList, Option.none, [⟨99, true, false, false, false, false⟩]⟩ =
      (⟨{ mutDemoDb with
            roles := mutDemoDb.roles ++
              [⟨mutDemoDb.next_id, some 1, "new".toList, Option.none, [], false⟩],
            next_id := mutDemoDb.next_id + 1 },
        mutDemoDb⟩,
       Except.error ⟨400, "Menu item not available for your subscription plan".toList⟩) :=
  create_role_not_atomic ⟨mutDemoDb, mutDemoDb⟩ 1 ⟨1, "basic".toList, some 2⟩
    ⟨2, "basic".toList, "Basic".toList, true, 1⟩
    ⟨"new".toList, Option.none, [⟨99, true, false, false, false, false⟩]⟩
    (by decide) (by decide) (by decide)
    ⟨⟨99, true, false, false, false, false⟩, by decide, by decide⟩

/-- C4: a role-permission grid referencing a menu item outside the tenant's
plan entitlement is rejected by both `create_role` and `update_role`, and
the grid is never persisted (the committed database is unchanged). -/
theorem grid_entitlement_validation (s : SessionState) (tid rid : DbId)
    (tenant : TenantRow) (plan : PlanRow)
    (htenant : s.db.tenants.find? (fun t => t.id == tid) = some tenant)
    (hplan : tenant.subscription_plan_id.bind
      (fun pid => s.db.plans.find? (fun (p : PlanRow) => p.id == pid)) = some plan)
    (pc : RoleCreatePayload) (pu : RoleUpdatePayload) (gridU : List PermGrid)
    (hpu : pu.permissions = some gridU)
    (hbadC : ∃ g ∈ pc.permissions, ∀ item ∈ entitledMenuItems s.db plan.id,
        item.id ≠ g.menu_item_id)
    (hbadU : ∃ g ∈ gridU, ∀ item ∈ entitledMenuItems s.db plan.id,
        item.id ≠ g.menu_item_id) :
    ((∃ e, (createRole s tid pc).2 = Except.error e)
      ∧ (createRole s tid pc).1.committed = s.committed)
    ∧ ((∃ e, (updateRole s rid tid pu).2 = Except.error e)
      ∧ (updateRole s rid tid pu).1.committed = s.committed) := by
  constructor
  · cases hname : s.db.roles.find?
        (fun r => r.tenant_id == some tid && r.name == pc.name) with
    | some r0 =>
      constructor
      · exact ⟨⟨400, "Role already exists".toList⟩, by simp only [createRole, hname]⟩
      · simp only [createRole, hname]
    | none =>
      rw [createRole_entitlement_reduction s tid tenant plan pc htenant hplan hname hbadC]
      exact ⟨⟨⟨400, "Menu item not available for your subscription plan".toList⟩, rfl⟩,
        rfl⟩
  · cases hrole : s.db.roles.find? (fun r => r.id == rid && r.tenant_id == some tid) with
    | none =>
      constructor
      · exact ⟨⟨404, "Role not found".toList⟩, by simp only [updateRole, hrole]⟩
      · simp only [updateRole, hrole]
    | some role =>
      cases hsys : role.is_system_role with
      | true =>
        constructor
        · exact ⟨⟨400, "Cannot modify system roles".toList⟩,
            by simp only [updateRole, hrole, hsys, if_true]⟩
        · simp only [updateRole, hrole, hsys, if_true]
      | false =>
        cases hn : pu.name with
        | some n =>
          cases hcol : s.db.roles.find? (fun r =>
              r.tenant_id == some tid && r.name == n && r.id != rid) with
          | some r2 =>
            constructor
            · exact ⟨⟨400, "Role already exists".toList⟩,
                by simp only [updateRole, hrole, hsys, Bool.false_eq_true, if_false,
                  hn, hcol]⟩
            · simp only [updateRole, hrole, hsys, Bool.false_eq_true, if_false, hn, hcol]
          | none =>
            rw [updateRole_grid_error_reduction s rid tid role pu gridU tenant plan
              hrole hsys (Or.inr ⟨n, hn, hcol⟩) hpu htenant hplan hbadU]
            exact ⟨⟨⟨400, "Menu item not available for your subscription plan".toList⟩, rfl⟩,
        rfl⟩
        | none =>
          rw [updateRole_grid_error_reduction s rid tid role pu gridU tenant plan
            hrole hsys (Or.inl hn) hpu htenant hplan hbadU]
          exact ⟨⟨⟨400, "Menu item not available for your subscription plan".toList⟩, rfl⟩,
        rfl⟩

/-- Witness for C4 on a concrete database with an empty entitlement set. -/
theorem grid_entitlement_validation_witness :
    ((∃ e, (createRole ⟨mutDemoDb, mutDemoDb⟩ 1
        ⟨"new".toList, Option.none, [⟨99, true, false, false, false, false⟩]⟩).2 =
          Except.error e)
      ∧ (createRole ⟨mutDemoDb, mutDemoDb⟩ 1
          ⟨"new".toList, Option.none,
            [⟨99, true, false, false, false, false⟩]⟩).1.committed = mutDemoDb)
    ∧ ((∃ e, (updateRole ⟨mutDemoDb, mutDemoDb⟩ 5 1
        ⟨Option.none, Option.none, some [⟨99, true, false, false, false, false⟩]⟩).2 =
          Except.error e)
      ∧ (updateRole ⟨mutDemoDb, mutDemoDb⟩ 5 1
          ⟨Option.none, Option.none,
            some [⟨99, true, false, false, false, false⟩]⟩).1.committed = mutDemoDb) :=
  grid_entitlement_validation ⟨mutDemoDb, mutDemoDb⟩ 1 5 ⟨1, "basic".toList, some 2⟩
    ⟨2, "basic".toList, "Basic".toList, true, 1⟩ (by decide) (by decide)
    ⟨"new".toList, Option.none, [⟨99, true, false, false, false, false⟩]⟩
    ⟨Option.none, Option.none, some [⟨99, true, false, false, false, false⟩]⟩
    [⟨99, true, false, false, false, false⟩] rfl
    ⟨⟨99, true, false, false, false, false⟩, by decide, by decide⟩
    ⟨⟨99, true, false, false, false, false⟩, by decide, by decide⟩

/-- C10: `update_role` with no `permissions` in the payload leaves the
stored permission token list unchanged, and any field the payload does not
provide keeps its previous value. -/
theorem update_role_frame (s : SessionState) (rid tid : DbId) (role : RoleRow)
    (pu : RoleUpdatePayload)
    (hrole : s.db.roles.find?
      (fun r => r.id == rid && r.tenant_id == some tid) = some role)
    (hsys : role.is_system_role = false)
    (hperm : pu.permissions = Option.none)
    (hname : pu.name = Option.none ∨ ∃ n, pu.name = some n ∧
      s.db.roles.find? (fun r => r.tenant_id == some tid && r.name == n && r.id != rid)
        = Option.none) :
    (updateRole s rid tid pu =
      (⟨{ s.db with roles := s.db.roles.map (fun r => if r.id == role.id then roleAfterUpdate role pu else r) },
        { s.db with roles := s.db.roles.map (fun r => if r.id == role.id then roleAfterUpdate role pu else r) }⟩,
       Except.ok role.id))
    ∧ (roleAfterUpdate role pu).permissions = role.permissions
    ∧ (pu.name = Option.none → (roleAfterUpdate role pu).name = role.name)
    ∧ (pu.description = Option.none →
        (roleAfterUpdate role pu).description = role.description) := by
  refine ⟨?_, rfl, ?_, ?_⟩
  · simp only [updateRole, hrole, hsys, Bool.false_eq_true, if_false]
    rcases hname with hn | ⟨n, hn, hfind⟩
    · simp only [hn, hperm]
    · simp only [hn, hfind, hperm]
  · intro h
    simp [roleAfterUpdate, h]
  · intro h
    simp [roleAfterUpdate, h]

/-- Witness for C10: an update with an all-`None` payload leaves the stored
role, in particular its token list, unchanged. -/
theorem update_role_frame_witness :
    (updateRole ⟨mutDemoDb, mutDemoDb⟩ 5 1 ⟨Option.none, Option.none, Option.none⟩ =
      (⟨{ mutDemoDb with roles := mutDemoDb.roles.map (fun r => if r.id == (5 : DbId) then roleAfterUpdate ⟨5, some 1, "r".toList, Option.none, ["products.view".toList], false⟩ ⟨Option.none, Option.none, Option.none⟩ else r) },
        { mutDemoDb with roles := mutDemoDb.roles.map (fun r => if r.id == (5 : DbId) then roleAfterUpdate ⟨5, some 1, "r".toList, Option.none, ["products.view".toList], false⟩ ⟨Option.none, Option.none, Option.none⟩ else r) }⟩,
       Except.ok 5))
    ∧ (roleAfterUpdate ⟨5, some 1, "r".toList, Option.none,
        ["products.view".toList], false⟩
        ⟨Option.none, Option.none, Option.none⟩).permissions =
      (⟨5, some 1, "r".toList, Option.none, ["products.view".toList], false⟩
        : RoleRow).permissions
    ∧ ((Option.none : Option PyStr) = Option.none →
        (roleAfterUpdate ⟨5, some 1, "r".toList, Option.none,
          ["products.view".toList], false⟩
          ⟨Option.none, Option.none, Option.none⟩).name =
        (⟨5, some 1, "r".toList, Option.none, ["products.view".toList], false⟩
          : RoleRow).name)
    ∧ ((Option.none : Option PyStr) = Option.none →
        (roleAfterUpdate ⟨5, some 1, "r".toList, Option.none,
          ["products.view".toList], false⟩
          ⟨Option.none, Option.none, Option.none⟩).description =
        (⟨5, some 1, "r".toList, Option.none, ["products.view".toList], false⟩
          : RoleRow).description) :=
  update_role_frame ⟨mutDemoDb, mutDemoDb⟩ 5 1
    ⟨5, some 1, "r".toList, Option.none, ["products.view".toList], false⟩
    ⟨Option.none, Option.none, Option.none⟩ (by decide) rfl rfl (Or.inl rfl)

end ERP
